import Mathlib

/-!
Verification development for the hackathon winner-crawler backend.

Shallow embedding of the core components:
  - the retrying fetch client (app/scraping/http_client.py),
  - URL normalization (app/scraping/url_utils.py),
  - the crawl engine with its bounded fetch scheduler (app/scraping/service.py),
  - the job store and orchestrator (app/db.py, app/job_orchestrator.py, app/main.py).

Network responses, parsed gallery pages and parsed project pages are supplied
by oracle functions (they are external collaborators of the core); everything
the core itself computes is translated directly from the source.
-/

namespace Hackaplan

/-! ## Error taxonomy (app/errors.py)

Each `AppError` subclass carries a string `code`; `errCode` reproduces those
strings. -/

inductive AppErrorKind where
  | validation
  | network
  | parse
  | blocked
  | timeout
  | notFound
deriving DecidableEq, Repr

def errCode : AppErrorKind → String
  | .validation => "validation_error"
  | .network => "network_error"
  | .parse => "parse_error"
  | .blocked => "blocked_error"
  | .timeout => "timeout_error"
  | .notFound => "not_found_error"

/-! ## Fetch client (app/scraping/http_client.py)

`RetryHttpClient._fetch_with_retries` issues up to `retry_count` attempts.
An attempt's raw outcome is either an HTTP response with a status code, a
transport-level request error (`httpx.RequestError`, tagged so distinct
errors can be told apart), or a timeout (`httpx.TimeoutException`). -/

inductive AttemptResult where
  | response (status : Nat)
  | transportError (tag : Nat)
  | timeoutError
deriving DecidableEq, Repr

/-- Classification of one attempt, mirroring the body of the `for` loop:
403/429 raise `BlockedAppError` (re-raised immediately); 5xx raise
`NetworkAppError`; any other status >= 400 also raises `NetworkAppError`;
both `NetworkAppError` and transport errors are caught and retried, as are
timeouts. -/
inductive AttemptClass where
  | success (status : Nat)
  | blocked (status : Nat)
  | retryNet (status : Nat)
  | retryTransport (tag : Nat)
  | retryTimeout
deriving DecidableEq, Repr

def classifyAttempt : AttemptResult → AttemptClass
  | .response s =>
      if s = 403 ∨ s = 429 then .blocked s
      else if 500 ≤ s ∧ s < 600 then .retryNet s
      else if 400 ≤ s then .retryNet s
      else .success s
  | .transportError t => .retryTransport t
  | .timeoutError => .retryTimeout

/-- The `last_error` variable of `_fetch_with_retries`. -/
inductive LastErr where
  | timeout
  | netStatus (status : Nat)
  | transport (tag : Nat)
deriving DecidableEq, Repr

/-- Origin of a final `NetworkAppError`: either a re-raised status-derived
`NetworkAppError`, or a fresh one wrapping the last transport error. -/
inductive NetErrSrc where
  | fromStatus (status : Nat)
  | fromTransport (tag : Nat)
deriving DecidableEq, Repr

inductive FetchResult where
  | ok (status : Nat)
  | blockedErr (status : Nat)
  | timeoutErr
  | networkErr (src : NetErrSrc)
  | networkGeneric
deriving DecidableEq, Repr

/-- The epilogue after the loop: `TimeoutException` becomes
`TimeoutAppError`, a stored `NetworkAppError` is re-raised, a stored
transport error is wrapped in a new `NetworkAppError`, and with no stored
error a generic `NetworkAppError` is raised. -/
def finalizeFetch : Option LastErr → FetchResult
  | some .timeout => .timeoutErr
  | some (.netStatus s) => .networkErr (.fromStatus s)
  | some (.transport t) => .networkErr (.fromTransport t)
  | none => .networkGeneric

/-- Observable trace of one `_fetch_with_retries` call: the outcome, how
many HTTP requests were issued, and the backoff sleeps performed (in
seconds, in order). -/
structure FetchTrace where
  result : FetchResult
  attemptsIssued : Nat
  sleeps : List ℚ
deriving DecidableEq, Repr

/-- The retry loop, `for attempt in range(1, retry_count + 1)`.  `k` is the
current attempt number and `fuel` the number of attempts still allowed
(`fuel = retry_count + 1 - k`); `attempt == retry_count` is `fuel = 1`.
On a retryable failure with attempts remaining the client sleeps
`backoff_base * 2 ^ (attempt - 1)` seconds; `acc` accumulates sleeps in
reverse. -/
def fetchGo (attempts : Nat → AttemptResult) (base : ℚ) :
    Nat → Nat → Option LastErr → List ℚ → FetchTrace
  | k, 0, lastErr, acc => ⟨finalizeFetch lastErr, k - 1, acc.reverse⟩
  | k, fuel + 1, _lastErr, acc =>
      match classifyAttempt (attempts k) with
      | .success s => ⟨.ok s, k, acc.reverse⟩
      | .blocked s => ⟨.blockedErr s, k, acc.reverse⟩
      | .retryTimeout =>
          if fuel = 0 then ⟨finalizeFetch (some .timeout), k, acc.reverse⟩
          else fetchGo attempts base (k + 1) fuel (some .timeout) (base * 2 ^ (k - 1) :: acc)
      | .retryNet s =>
          if fuel = 0 then ⟨finalizeFetch (some (.netStatus s)), k, acc.reverse⟩
          else fetchGo attempts base (k + 1) fuel (some (.netStatus s)) (base * 2 ^ (k - 1) :: acc)
      | .retryTransport t =>
          if fuel = 0 then ⟨finalizeFetch (some (.transport t)), k, acc.reverse⟩
          else fetchGo attempts base (k + 1) fuel (some (.transport t)) (base * 2 ^ (k - 1) :: acc)

/-- `RetryHttpClient._fetch_with_retries` with attempt outcomes given by the
oracle `attempts` (indexed from 1). -/
def fetchWithRetries (attempts : Nat → AttemptResult) (base : ℚ) (retryCount : Nat) : FetchTrace :=
  fetchGo attempts base 1 retryCount none []

/-- `response.json()` in `fetch_json`: the body either fails to decode
(`ValueError`), or decodes to a non-`dict` value, or decodes to a `dict`. -/
inductive BodyDecode where
  | invalid
  | nonObject
  | object (fields : List (String × String))
deriving DecidableEq, Repr

/-- `RetryHttpClient.fetch_json`: on a successful fetch, a body that fails
to decode raises `NetworkAppError`, and so does a decoded non-`dict`
payload; fetch failures propagate unchanged. -/
def fetchJson (trace : FetchTrace) (decode : BodyDecode) :
    Except AppErrorKind (List (String × String)) :=
  match trace.result with
  | .ok _ =>
      match decode with
      | .invalid => .error .network
      | .nonObject => .error .network
      | .object fields => .ok fields
  | .blockedErr _ => .error .blocked
  | .timeoutErr => .error .timeout
  | .networkErr _ => .error .network
  | .networkGeneric => .error .network

/-! ## URL normalization (app/scraping/url_utils.py)

`normalize_hackathon_url` strips the raw string, defaults a missing scheme
to https, parses the URL, validates the host, removes trailing slashes from
the path, and drops params, query and fragment.  The parsing is modelled at
the character-list level, reproducing the relevant behaviour of
`urllib.parse.urlparse` on strings that begin with an http or https
scheme (the only strings the function ever parses). -/

/-- The whitespace characters removed by Python's `str.strip()`: exactly
the code points satisfying `str.isspace()` — U+0009..U+000D, U+001C..U+001F,
the space, U+0085, U+00A0, U+1680, U+2000..U+200A, U+2028, U+2029, U+202F,
U+205F and U+3000. -/
def isSpaceChar (c : Char) : Bool :=
  let n := c.toNat
  decide (9 ≤ n ∧ n ≤ 13) || decide (28 ≤ n ∧ n ≤ 31) || n == 32 || n == 133
    || n == 160 || n == 5760 || decide (8192 ≤ n ∧ n ≤ 8202) || n == 8232
    || n == 8233 || n == 8239 || n == 8287 || n == 12288

def trimChars (l : List Char) : List Char :=
  ((l.dropWhile isSpaceChar).reverse.dropWhile isSpaceChar).reverse

def startsWithChars : List Char → List Char → Bool
  | [], _ => true
  | _ :: _, [] => false
  | p :: ps, c :: cs => p == c && startsWithChars ps cs

def schemeHttpChars : List Char := ['h', 't', 't', 'p', ':', '/', '/']

def schemeHttpsChars : List Char := ['h', 't', 't', 'p', 's', ':', '/', '/']

/-- Scheme extraction of `urlparse` on a string starting with `http://` or
`https://`: the scheme and the remainder after the `://`. -/
def splitSchemeChars (l : List Char) : Option (List Char × List Char) :=
  if startsWithChars schemeHttpChars l then some (['h', 't', 't', 'p'], l.drop 7)
  else if startsWithChars schemeHttpsChars l then some (['h', 't', 't', 'p', 's'], l.drop 8)
  else none

/-- A netloc extends until the first `/`, `?` or `#`. -/
def isNetlocEnd (c : Char) : Bool :=
  c == '/' || c == '?' || c == '#'

def splitNetloc (l : List Char) : List Char × List Char :=
  (l.takeWhile (fun c => !isNetlocEnd c), l.dropWhile (fun c => !isNetlocEnd c))

/-- Split at the first occurrence of `c`: `(before, after)`, with
`after = []` also when `c` does not occur. -/
def splitFirstChar (c : Char) : List Char → List Char × List Char
  | [] => ([], [])
  | x :: xs =>
      if x == c then ([], xs)
      else
        let p := splitFirstChar c xs
        (x :: p.1, p.2)

/-- Whether `c` occurs, together with the split: used where Python
distinguishes "found" from "not found". -/
def containsChar (c : Char) (l : List Char) : Bool :=
  l.any (fun x => x == c)

/-- Split at the last occurrence of `c`, if any: `l = pre ++ c :: post`
with `c` not in `post`. -/
def rsplitLastChar (c : Char) (l : List Char) : Option (List Char × List Char) :=
  if containsChar c l then
    let p := splitFirstChar c l.reverse
    some (p.2.reverse, p.1.reverse)
  else none

/-- `urlparse._splitparams`: if the path contains a `/`, parameters are
searched only after the last `/`; the first `;` found there (or anywhere,
for a slashless path) separates path from params. -/
def splitParamsChars (p : List Char) : List Char × List Char :=
  match rsplitLastChar '/' p with
  | some (pre, seg) =>
      if containsChar ';' seg then
        let q := splitFirstChar ';' seg
        (pre ++ '/' :: q.1, q.2)
      else (p, [])
  | none =>
      if containsChar ';' p then
        let q := splitFirstChar ';' p
        (q.1, q.2)
      else (p, [])

/-- `path.rstrip("/")`: drop every trailing slash. -/
def rstripSlashChars (l : List Char) : List Char :=
  (l.reverse.dropWhile (fun c => c == '/')).reverse

def lowerChars (l : List Char) : List Char :=
  l.map Char.toLower

def endsWithChars (suffixChars l : List Char) : Bool :=
  startsWithChars suffixChars.reverse l.reverse

def devpostDomainChars : List Char :=
  ['d', 'e', 'v', 'p', 'o', 's', 't', '.', 'c', 'o', 'm']

/-- How a call to `normalize_hackathon_url` can fail: the function raises
`ValidationAppError` itself, while `urlparse` can raise an uncaught
`ValueError` ("Invalid IPv6 URL") for a netloc containing an unmatched
bracket. -/
inductive NormalizeError where
  | validation
  | invalidIpv6Url
deriving DecidableEq, Repr

/-- The part of `normalize_hackathon_url` that follows scheme splitting:
`urlsplit`'s bracket check on the netloc (an unmatched `[` or `]` raises
`ValueError("Invalid IPv6 URL")` in every CPython version; the additional
content validation of matched bracketed hosts added in CPython 3.11 is not
modelled, and every theorem below confines itself to bracket-free
netlocs), then netloc presence and host validation, the path cleanup
(`params`, `query` and `fragment` are replaced by empty strings, the path
loses its trailing slashes), and the `urlunparse` reassembly. -/
def normalizeParsed (scheme rest : List Char) : Except NormalizeError (List Char) :=
  let netloc := (splitNetloc rest).1
  let after := (splitNetloc rest).2
  if (containsChar '[' netloc && !containsChar ']' netloc)
      || (containsChar ']' netloc && !containsChar '[' netloc) then
    .error .invalidIpv6Url
  else if netloc.isEmpty then .error .validation
  else
    let host := lowerChars netloc
    if !endsWithChars devpostDomainChars host then .error .validation
    else
      let beforeFrag := (splitFirstChar '#' after).1
      let pathAndParams := (splitFirstChar '?' beforeFrag).1
      let path := (splitParamsChars pathAndParams).1
      let cleanedPath :=
        if path = [] || path = ['/'] then ([] : List Char)
        else rstripSlashChars path
      .ok (scheme ++ ':' :: '/' :: '/' :: (netloc ++ cleanedPath))

/-- `normalize_hackathon_url`, character-level core. -/
def normalizeChars (raw : List Char) : Except NormalizeError (List Char) :=
  let candidate := trimChars raw
  if candidate.isEmpty then .error .validation
  else
    let candidate :=
      if startsWithChars schemeHttpChars candidate || startsWithChars schemeHttpsChars candidate
      then candidate
      else schemeHttpsChars ++ candidate
    match splitSchemeChars candidate with
    | none => .error .validation
    | some (scheme, rest) => normalizeParsed scheme rest

/-- `normalize_hackathon_url(raw)`; `.error .validation` models a raised
`ValidationAppError` and `.error .invalidIpv6Url` a `ValueError` escaping
`urlparse`. -/
def normalizeHackathonUrl (raw : String) : Except NormalizeError String :=
  (normalizeChars raw.toList).map String.mk

/-! ## Crawl engine (app/scraping/service.py)

`DevpostScraper.scrape_hackathon` walks gallery pages, schedules deep
fetches of candidate project pages (deduplicated by `project_url`), decides
between badge-based detection and the fallback deep scan, and drains the
scheduled fetch tasks.  The external page parser (`parse_gallery_page`,
`parse_project_page`) and the network are supplied as oracles; deep-fetch
tasks are modelled as resolving at the final exhaustive drain, in schedule
order. -/

/-- `parser.WinnerCandidate`. -/
structure Candidate where
  projectTitle : String
  projectUrl : String
  softwareId : Option String
  previewImageUrl : Option String
deriving DecidableEq, Repr

/-- `parser.GalleryParseResult`. -/
structure GalleryParseResult where
  allEntries : List Candidate
  winnerEntries : List Candidate
  scannedProjects : Nat
  nextPageUrl : Option String
deriving DecidableEq, Repr

/-- One prize record of a parsed project page. -/
structure Prize where
  hackathonName : String
  hackathonUrl : String
  prizeName : String
deriving DecidableEq, Repr

/-- The project record returned by `parse_project_page` (fields not used by
the crawl engine's control flow are elided into the ones it reads). -/
structure Project where
  projectTitle : String
  projectUrl : String
  prizes : List Prize
  previewImageUrl : Option String
deriving DecidableEq, Repr

/-- Progress events emitted through the crawl's `progress_callback`,
restricted to the payload fields the claims are about.  The Boolean on
`winnerProjectFound` records whether the event came from the
prize-confirmation path inside `scrape_candidate` (its payload then carries
a `source` field). -/
inductive CrawlEvent where
  | winnerProjectFound (projectUrl : String) (fromPrizeConfirmation : Bool)
  | galleryPageScanned (pageUrl : String) (pageNumber scannedProjects winnersFoundOnPage : Nat)
      (nextPageUrl : Option String)
  | winnerDetectionFallback (candidateProjects : Nat)
  | winnersNotAnnounced
  | winnerProjectScraped (index total : Nat) (projectUrl : String)
deriving DecidableEq, Repr

/-- A scheduled deep-fetch task (an entry of `pending_scrape_tasks`). -/
structure ScrapeTask where
  candidate : Candidate
  requiresPrizeConfirmation : Bool
deriving DecidableEq, Repr

/-- Mutable locals of `scrape_hackathon` up to the point where tasks are
drained. -/
structure CrawlSchedState where
  visitedPages : List String
  scannedPages : Nat
  scannedProjects : Nat
  allCandidates : List Candidate
  foundGalleryWinners : Bool
  scheduledProjectUrls : List String
  totalCandidatesScheduled : Nat
  tasks : List ScrapeTask
  events : List CrawlEvent
deriving Repr

def initCrawlState : CrawlSchedState :=
  { visitedPages := []
    scannedPages := 0
    scannedProjects := 0
    allCandidates := []
    foundGalleryWinners := false
    scheduledProjectUrls := []
    totalCandidatesScheduled := 0
    tasks := []
    events := [] }

/-- `schedule_candidate`: a `project_url` already in
`scheduled_project_urls` is skipped; otherwise the url is recorded, the
scheduled counter is incremented and a task is created. -/
def scheduleCandidate (st : CrawlSchedState) (c : Candidate)
    (requiresPrizeConfirmation : Bool) : CrawlSchedState :=
  if c.projectUrl ∈ st.scheduledProjectUrls then st
  else
    { st with
      scheduledProjectUrls := st.scheduledProjectUrls ++ [c.projectUrl]
      totalCandidatesScheduled := st.totalCandidatesScheduled + 1
      tasks := st.tasks ++ [⟨c, requiresPrizeConfirmation⟩] }

/-- Body of `for entry in parsed_page.winner_entries`: set
`found_gallery_winners`, emit `winner_project_found`, and schedule a deep
fetch that does not require prize confirmation. -/
def recordWinnerEntry (st : CrawlSchedState) (e : Candidate) : CrawlSchedState :=
  scheduleCandidate
    { st with
      foundGalleryWinners := true
      events := st.events ++ [.winnerProjectFound e.projectUrl false] }
    e false

/-- Processing of one fetched gallery page inside the pagination loop:
counters and candidate accumulation, winner entries, then the
`gallery_page_scanned` event (whose `page_number` is the incremented
counter). -/
def processGalleryPage (st : CrawlSchedState) (u : String) (pg : GalleryParseResult) :
    CrawlSchedState :=
  let st1 :=
    { st with
      scannedPages := st.scannedPages + 1
      scannedProjects := st.scannedProjects + pg.scannedProjects
      allCandidates := st.allCandidates ++ pg.allEntries }
  let st2 := pg.winnerEntries.foldl recordWinnerEntry st1
  { st2 with
    events := st2.events ++
      [.galleryPageScanned u st2.scannedPages pg.scannedProjects pg.winnerEntries.length
        pg.nextPageUrl] }

/-- The pagination loop `while page_url and page_url not in visited_pages`.
`fetchPage` composes `fetch_text` with `parse_gallery_page`; an `.error`
models a raised fetch or parse failure, which aborts the crawl.  `fuel`
bounds the number of iterations modelled (the loop itself terminates only
through the cycle guard or a missing next page). -/
def walkPages (fetchPage : String → Except AppErrorKind GalleryParseResult) :
    Nat → Option String → CrawlSchedState → Except AppErrorKind CrawlSchedState
  | _, none, st => .ok st
  | 0, some _, st => .ok st
  | fuel + 1, some u, st =>
      if u ∈ st.visitedPages then .ok st
      else
        let st1 := { st with visitedPages := st.visitedPages ++ [u] }
        match fetchPage u with
        | .error e => .error e
        | .ok pg => walkPages fetchPage fuel pg.nextPageUrl (processGalleryPage st1 u pg)

/-- The deduplication of `all_candidates` by `project_url` performed before
the fallback pass. -/
def dedupByUrl (cs : List Candidate) : List Candidate :=
  (cs.foldl
    (fun (acc : List Candidate × List String) c =>
      if c.projectUrl ∈ acc.2 then acc else (acc.1 ++ [c], acc.2 ++ [c.projectUrl]))
    ([], [])).1

/-- Oracles and landing-page data for one crawl.  `hackathonName`,
`winnersAnnounced` and `galleryUrl` are what `parse_hackathon_name`,
`winners_are_announced` and `resolve_gallery_url` produced from the landing
page; `normalizedUrl` is the normalized target; `fetchProject` composes
`fetch_text_with_options` with `parse_project_page`. -/
structure CrawlEnv where
  hackathonName : String
  normalizedUrl : String
  winnersAnnounced : Bool
  galleryUrl : String
  fetchPage : String → Except AppErrorKind GalleryParseResult
  fetchProject : String → Except AppErrorKind Project

/-- The decision after pagination: with no badge winner and winners
announced, deduplicate all candidates, emit `winner_detection_fallback`,
and schedule every unique candidate with prize confirmation required; with
no badge winner and winners not announced, emit `winners_not_announced`;
otherwise do nothing. -/
def fallbackStep (env : CrawlEnv) (st : CrawlSchedState) : CrawlSchedState :=
  if !st.foundGalleryWinners && env.winnersAnnounced then
    let uniq := dedupByUrl st.allCandidates
    let st1 := { st with events := st.events ++ [.winnerDetectionFallback uniq.length] }
    uniq.foldl (fun s c => scheduleCandidate s c true) st1
  else if !st.foundGalleryWinners then
    { st with events := st.events ++ [.winnersNotAnnounced] }
  else st

/-- Pagination followed by the fallback decision: the whole scheduling
phase of a crawl. -/
def crawlSchedule (env : CrawlEnv) (fuel : Nat) : Except AppErrorKind CrawlSchedState :=
  (walkPages env.fetchPage fuel (some env.galleryUrl) initCrawlState).map (fallbackStep env)

/-- The generic prize name synthesized for badge-tagged winners whose page
shows no prize labels. -/
def winnerPrizeName : String := "Winner"

/-- `scrape_candidate`: deep-fetch and parse the project page; with prize
confirmation required and no prize record, the candidate is filtered out
(`None`); badge-tagged candidates without prize records get a single
synthesized generic Winner prize attributed to the hackathon. -/
def scrapeCandidate (fetchProject : String → Except AppErrorKind Project)
    (hackathonName hackathonUrl : String) (candidate : Candidate)
    (requiresPrizeConfirmation : Bool) : Except AppErrorKind (Option Project) :=
  match fetchProject candidate.projectUrl with
  | .error e => .error e
  | .ok project =>
      if requiresPrizeConfirmation && project.prizes.isEmpty then .ok none
      else if !requiresPrizeConfirmation && project.prizes.isEmpty then
        .ok (some
          { project with
            prizes := [⟨hackathonName, hackathonUrl, winnerPrizeName⟩] })
      else .ok (some project)

/-- The exhaustive `drain_completed_scrapes(wait_for_all=True)`, with tasks
resolving in schedule order: a filtered-out task (`None`) is skipped
silently; a kept project is appended to `winners` and `winner_project_scraped`
is emitted with `total = max(total_candidates_scheduled, index)`; inside
`scrape_candidate`, a kept prize-confirmed project first emits its own
`winner_project_found` event; a failed task's error propagates. -/
def drainScrapes (scrape : Candidate → Bool → Except AppErrorKind (Option Project))
    (total : Nat) :
    List ScrapeTask → List Project → List CrawlEvent →
    Except AppErrorKind (List Project × List CrawlEvent)
  | [], winners, events => .ok (winners, events)
  | t :: ts, winners, events =>
      match scrape t.candidate t.requiresPrizeConfirmation with
      | .error e => .error e
      | .ok none => drainScrapes scrape total ts winners events
      | .ok (some p) =>
          let events1 :=
            if t.requiresPrizeConfirmation then events ++ [.winnerProjectFound p.projectUrl true]
            else events
          let winners1 := winners ++ [p]
          drainScrapes scrape total ts winners1
            (events1 ++ [.winnerProjectScraped winners1.length (max total winners1.length) p.projectUrl])

/-- The final `CrawlResult` dictionary. -/
structure CrawlOutput where
  hackathonName : String
  hackathonUrl : String
  galleryUrl : String
  scannedPages : Nat
  scannedProjects : Nat
  winnerCount : Nat
  winners : List Project
  events : List CrawlEvent
deriving Repr

/-- `scrape_hackathon` after the landing page has been fetched and parsed:
scheduling phase, exhaustive drain, then the empty-gallery check (a crawl
that scanned zero pages raises `ParseAppError`). -/
def scrapeHackathon (env : CrawlEnv) (fuel : Nat) : Except AppErrorKind CrawlOutput :=
  match crawlSchedule env fuel with
  | .error e => .error e
  | .ok st =>
      match drainScrapes (scrapeCandidate env.fetchProject env.hackathonName env.normalizedUrl)
          st.totalCandidatesScheduled st.tasks [] st.events with
      | .error e => .error e
      | .ok (winners, events) =>
          if st.scannedPages = 0 then .error .parse
          else
            .ok
              { hackathonName := env.hackathonName
                hackathonUrl := env.normalizedUrl
                galleryUrl := env.galleryUrl
                scannedPages := st.scannedPages
                scannedProjects := st.scannedProjects
                winnerCount := winners.length
                winners := winners
                events := events }

/-- The `project_url`s of every deep fetch scheduled during a crawl
(empty when the crawl fails during pagination). -/
def scheduledUrls (env : CrawlEnv) (fuel : Nat) : List String :=
  match crawlSchedule env fuel with
  | .ok st => st.tasks.map (fun t => t.candidate.projectUrl)
  | .error _ => []

/-! ## Job store (app/db.py)

The `lookup_jobs` table is modelled as a list of rows in insertion order;
timestamps are naturals.  Queries reproduce the SQL of `Database`:
`WHERE id = ?` on the primary key is a first-match lookup, and
`ORDER BY ... LIMIT 1` is a fold keeping the first row among ties. -/

inductive JobStatus where
  | queued
  | started
  | completed
  | failed
deriving DecidableEq, Repr

structure Job where
  id : String
  hackathonUrl : String
  status : JobStatus
  createdAt : Nat
  startedAt : Option Nat := none
  finishedAt : Option Nat := none
  errorCode : Option String := none
  errorMessage : Option String := none
deriving DecidableEq, Repr

/-- `Database.get_lookup_job`. -/
def getLookupJob (jobs : List Job) (lookupId : String) : Option Job :=
  jobs.find? (fun j => j.id == lookupId)

/-- `UPDATE lookup_jobs SET ... WHERE id = ?`. -/
def updateJob (jobs : List Job) (lookupId : String) (f : Job → Job) : List Job :=
  jobs.map (fun j => if j.id == lookupId then f j else j)

/-- `Database.set_lookup_started`. -/
def setLookupStarted (jobs : List Job) (lookupId : String) (now : Nat) : List Job :=
  updateJob jobs lookupId (fun j => { j with status := .started, startedAt := some now })

/-- `Database.set_lookup_completed`. -/
def setLookupCompleted (jobs : List Job) (lookupId : String) (now : Nat) : List Job :=
  updateJob jobs lookupId
    (fun j =>
      { j with
        status := .completed
        finishedAt := some now
        errorCode := none
        errorMessage := none })

/-- `Database.set_lookup_failed`. -/
def setLookupFailed (jobs : List Job) (lookupId : String) (code msg : String) (now : Nat) :
    List Job :=
  updateJob jobs lookupId
    (fun j =>
      { j with
        status := .failed
        finishedAt := some now
        errorCode := some code
        errorMessage := some msg })

def isActiveStatus (s : JobStatus) : Bool :=
  s == .queued || s == .started

/-- `ORDER BY created_at ASC LIMIT 1` over a filtered row list. -/
def firstByCreatedAt (jobs : List Job) : Option Job :=
  jobs.foldl
    (fun acc j =>
      match acc with
      | none => some j
      | some k => if j.createdAt < k.createdAt then some j else some k)
    none

/-- `Database.get_latest_active_lookup_for_url`: the `queued`/`started`
rows for the url, ordered by `created_at` ascending, first row. -/
def getLatestActiveLookupForUrl (jobs : List Job) (url : String) : Option Job :=
  firstByCreatedAt
    (jobs.filter (fun j => j.hackathonUrl == url && isActiveStatus j.status))

/-- `ORDER BY finished_at DESC LIMIT 1` over a filtered row list. -/
def firstByFinishedAtDesc (jobs : List Job) : Option Job :=
  jobs.foldl
    (fun acc j =>
      match acc with
      | none => some j
      | some k => if k.finishedAt.getD 0 < j.finishedAt.getD 0 then some j else some k)
    none

/-- `Database.get_recent_completed_lookup_for_url`: completed rows for the
url joined with a saved result, finished on or after `finishedSince`,
newest first. -/
def getRecentCompletedLookupForUrl (jobs : List Job) (resultIds : List String)
    (url : String) (finishedSince : Nat) : Option Job :=
  firstByFinishedAtDesc
    (jobs.filter
      (fun j =>
        resultIds.contains j.id && j.hackathonUrl == url && j.status == .completed &&
          match j.finishedAt with
          | some t => finishedSince ≤ t
          | none => false))

/-! ## Orchestrator worker (app/job_orchestrator.py)

`_process_lookup` drives one job through the state machine; the crawl
itself (with its `asyncio.wait_for` deadline) is an oracle.  Persisted
progress events are modelled as `(lookup_id, event_type)` pairs in publish
order; `publish_event` persists first and then broadcasts best-effort, so
the persisted list is also what a live subscriber observes. -/

/-- The persisted event-type strings and error fields used by the worker. -/
def evStarted : String := "started"

def evCompleted : String := "completed"

def evFailed : String := "failed"

def evQueued : String := "queued"

def timeoutErrorCode : String := "timeout_error"

def timeoutErrorMessage : String := "Lookup timed out"

def failedMessage : String := "scrape failed"

/-- Outcome of `asyncio.wait_for(scraper.scrape_hackathon(...))`:
success with a result, the orchestrator-level deadline, or an `AppError`
raised by the crawl. -/
inductive CrawlRunOutcome where
  | ok (winnerCount : Nat)
  | deadline
  | err (e : AppErrorKind)
deriving DecidableEq, Repr

structure OrchState where
  jobs : List Job
  events : List (String × String)
  resultIds : List String
deriving DecidableEq, Repr

/-- `publish_event`: persist the progress event (broadcast is
best-effort and adds no persisted state). -/
def publishEvent (st : OrchState) (lookupId eventType : String) : OrchState :=
  { st with events := st.events ++ [(lookupId, eventType)] }

/-- `Database.save_lookup_result` (idempotent upsert keyed by job id). -/
def saveLookupResult (st : OrchState) (lookupId : String) : OrchState :=
  if st.resultIds.contains lookupId then st
  else { st with resultIds := st.resultIds ++ [lookupId] }

/-- `JobOrchestrator._process_lookup`: a missing job row is a no-op;
otherwise mark started, publish `started`, run the crawl, and persist the
terminal state and event.  A deadline persists a `timeout_error`; an
`AppError` persists its code. -/
def processLookup (crawl : String → CrawlRunOutcome) (now : Nat) (st : OrchState)
    (lookupId : String) : OrchState :=
  match getLookupJob st.jobs lookupId with
  | none => st
  | some job =>
      let st1 := { st with jobs := setLookupStarted st.jobs lookupId now }
      let st2 := publishEvent st1 lookupId evStarted
      match crawl job.hackathonUrl with
      | .ok _ =>
          let st3 := saveLookupResult st2 lookupId
          let st4 := { st3 with jobs := setLookupCompleted st3.jobs lookupId now }
          publishEvent st4 lookupId evCompleted
      | .deadline =>
          let st3 :=
            { st2 with
              jobs := setLookupFailed st2.jobs lookupId timeoutErrorCode timeoutErrorMessage now }
          publishEvent st3 lookupId evFailed
      | .err e =>
          let st3 :=
            { st2 with jobs := setLookupFailed st2.jobs lookupId (errCode e) failedMessage now }
          publishEvent st3 lookupId evFailed

/-- `_worker_loop` over the ids pulled from the queue: process each in
order; nothing a single item does stops the loop. -/
def workerLoop (crawl : String → CrawlRunOutcome) (now : Nat) :
    OrchState → List String → OrchState
  | st, [] => st
  | st, lookupId :: rest => workerLoop crawl now (processLookup crawl now st lookupId) rest

/-! ## Lookup submission (app/main.py `create_lookup`)

The handler normalizes the target, returns an existing active job
unchanged (re-enqueueing it when it is still `queued`), consults the
freshness cache, and otherwise creates and enqueues a new `queued` job,
publishing a `queued` event. -/

structure ApiState where
  jobs : List Job
  events : List (String × String)
  resultIds : List String
  queue : List String
deriving DecidableEq, Repr

/-- The handler's outcome: the 422 response for a caught
`ValidationAppError`, an unhandled exception escaping the handler (the
`try` block catches only `ValidationAppError`, so a `ValueError` from
normalization propagates), or the accepted lookup. -/
inductive CreateLookupResponse where
  | validationError
  | unhandledError
  | accepted (lookupId : String) (status : JobStatus)
deriving DecidableEq, Repr

def createLookup (st : ApiState) (rawUrl : String) (cacheTtlSeconds : Nat) (now : Nat)
    (newId : String) : CreateLookupResponse × ApiState :=
  match normalizeHackathonUrl rawUrl with
  | .error .validation => (.validationError, st)
  | .error .invalidIpv6Url => (.unhandledError, st)
  | .ok normalized =>
      match getLatestActiveLookupForUrl st.jobs normalized with
      | some active =>
          let st1 :=
            if active.status == .queued then { st with queue := st.queue ++ [active.id] }
            else st
          (.accepted active.id active.status, st1)
      | none =>
          let cached :=
            if 0 < cacheTtlSeconds then
              getRecentCompletedLookupForUrl st.jobs st.resultIds normalized
                (now - cacheTtlSeconds)
            else none
          match cached with
          | some cachedJob => (.accepted cachedJob.id cachedJob.status, st)
          | none =>
              let job : Job :=
                { id := newId, hackathonUrl := normalized, status := .queued, createdAt := now }
              let st1 :=
                { st with
                  jobs := st.jobs ++ [job]
                  events := st.events ++ [(newId, evQueued)]
                  queue := st.queue ++ [newId] }
              (.accepted newId .queued, st1)

/-! ## Observation helpers used by the statements below -/

/-- An attempt outcome the retry loop catches and retries (a timeout, a
transport error, or a caught `NetworkAppError`). -/
def isRetryable (a : AttemptResult) : Bool :=
  match classifyAttempt a with
  | .retryNet _ => true
  | .retryTransport _ => true
  | .retryTimeout => true
  | .success _ => false
  | .blocked _ => false

/-- The `last_error` recorded for a retryable attempt outcome. -/
def lastErrOf (a : AttemptResult) : Option LastErr :=
  match classifyAttempt a with
  | .retryNet s => some (.netStatus s)
  | .retryTransport t => some (.transport t)
  | .retryTimeout => some .timeout
  | .success _ => none
  | .blocked _ => none

/-- The backoff schedule: the sleep after attempt `i + 1` lasts
`base * 2 ^ i` seconds. -/
def backoffList (base : ℚ) (m : Nat) : List ℚ :=
  (List.range m).map (fun i => base * 2 ^ i)

/-- Whether an event marks the fallback deep-scan pass. -/
def isFallbackPassEvent : CrawlEvent → Bool
  | .winnerDetectionFallback _ => true
  | _ => false

/-- Bookkeeping invariant of the fetch scheduler: the recorded
`scheduled_project_urls` are exactly the urls of the pending tasks, without
duplicates, and the schedule counter is the task count. -/
def schedInv (st : CrawlSchedState) : Prop :=
  st.tasks.map (fun t => t.candidate.projectUrl) = st.scheduledProjectUrls
    ∧ st.scheduledProjectUrls.Nodup
    ∧ st.totalCandidatesScheduled = st.tasks.length

/-! ## Concrete fixtures used by witnesses -/

def hackNameW : String := "Sample Hack"

def hackUrlW : String := "https://hack.devpost.com"

def galleryUrlW : String := "https://hack.devpost.com/project-gallery"

def projectUrlW : String := "https://devpost.com/software/sample"

def candW : Candidate :=
  { projectTitle := "Sample", projectUrl := projectUrlW, softwareId := none,
    previewImageUrl := none }

/-- One gallery page with a badge-tagged winner and no next page. -/
def pageWinnerW : GalleryParseResult :=
  { allEntries := [candW], winnerEntries := [candW], scannedProjects := 1, nextPageUrl := none }

/-- One gallery page with no badge-tagged winner and no next page. -/
def pageNoWinnerW : GalleryParseResult :=
  { allEntries := [candW], winnerEntries := [], scannedProjects := 1, nextPageUrl := none }

/-- Environment for a crawl whose only project fetch is denied (HTTP
403/429): the gallery lists one badge-tagged winner. -/
def envBlockedW : CrawlEnv :=
  { hackathonName := hackNameW
    normalizedUrl := hackUrlW
    winnersAnnounced := true
    galleryUrl := galleryUrlW
    fetchPage := fun u => if u = galleryUrlW then .ok pageWinnerW else .error .network
    fetchProject := fun _ => .error .blocked }

/-- Environment for a crawl with no badge winners and winners not yet
announced. -/
def envNotAnnouncedW : CrawlEnv :=
  { hackathonName := hackNameW
    normalizedUrl := hackUrlW
    winnersAnnounced := false
    galleryUrl := galleryUrlW
    fetchPage := fun u => if u = galleryUrlW then .ok pageNoWinnerW else .error .network
    fetchProject := fun _ => .error .network }

/-- The walk result of `envNotAnnouncedW` with fuel 1. -/
def stNotAnnouncedW : CrawlSchedState :=
  { visitedPages := [galleryUrlW]
    scannedPages := 1
    scannedProjects := 1
    allCandidates := [candW]
    foundGalleryWinners := false
    scheduledProjectUrls := []
    totalCandidatesScheduled := 0
    tasks := []
    events := [.galleryPageScanned galleryUrlW 1 1 0 none] }

/-- A parsed project page with no prize records. -/
def emptyPrizeProjW : Project :=
  { projectTitle := hackNameW
    projectUrl := projectUrlW
    prizes := []
    previewImageUrl := none }

def jobIdW : String := "job-1"

def newIdW : String := "job-2"

def startedJobW : Job :=
  { id := jobIdW, hackathonUrl := hackUrlW, status := .started, createdAt := 1,
    startedAt := some 2 }

def queuedJobW : Job :=
  { id := jobIdW, hackathonUrl := hackUrlW, status := .queued, createdAt := 1 }

def apiStateStartedW : ApiState :=
  { jobs := [startedJobW], events := [], resultIds := [], queue := [] }

def orchStateW : OrchState :=
  { jobs := [queuedJobW], events := [], resultIds := [] }

def crawlBlockedW : String → CrawlRunOutcome := fun _ => .err .blocked

/-! ## URL fixtures for the normalization claims -/

def rawHttpFooW : String := "http://foo.devpost.com"

def rawBareFooW : String := "foo.devpost.com"

def outHttpsFooW : String := "https://foo.devpost.com"

def rawSemiW : String := "https://devpost.com/a;b/"

def outSemiOnceW : String := "https://devpost.com/a;b"

def outSemiTwiceW : String := "https://devpost.com/a"

def hostFooChars : List Char :=
  ['f', 'o', 'o', '.', 'd', 'e', 'v', 'p', 'o', 's', 't', '.', 'c', 'o', 'm']

def restBarChars : List Char := ['/', 'b', 'a', 'r']

/-! # Theorems -/

/-! ## Fetch-client lemmas -/

theorem fetchGo_attempts_le (attempts : Nat → AttemptResult) (base : ℚ) :
    ∀ (fuel k : Nat) (lastErr : Option LastErr) (acc : List ℚ),
      (fetchGo attempts base k fuel lastErr acc).attemptsIssued ≤ k + fuel - 1 := by
  intro fuel
  induction fuel with
  | zero => intro k lastErr acc; simp [fetchGo]
  | succ n ih =>
      intro k lastErr acc
      rw [fetchGo]
      cases hc : classifyAttempt (attempts k) with
      | success s => simp
      | blocked s => simp
      | retryTimeout =>
          dsimp only
          by_cases hn : n = 0
          · subst hn; simp
          · rw [if_neg hn]
            exact le_trans (ih (k + 1) (some LastErr.timeout) (base * 2 ^ (k - 1) :: acc))
              (by omega)
      | retryNet s =>
          dsimp only
          by_cases hn : n = 0
          · subst hn; simp
          · rw [if_neg hn]
            exact le_trans (ih (k + 1) (some (LastErr.netStatus s)) (base * 2 ^ (k - 1) :: acc))
              (by omega)
      | retryTransport t =>
          dsimp only
          by_cases hn : n = 0
          · subst hn; simp
          · rw [if_neg hn]
            exact le_trans (ih (k + 1) (some (LastErr.transport t)) (base * 2 ^ (k - 1) :: acc))
              (by omega)

theorem backoffList_succ (base : ℚ) (k : Nat) :
    backoffList base (k + 1) = backoffList base k ++ [base * 2 ^ k] := by
  simp [backoffList, List.range_succ]

theorem fetchGo_sleeps_backoff (attempts : Nat → AttemptResult) (base : ℚ) :
    ∀ (fuel k : Nat) (lastErr : Option LastErr), 1 ≤ k →
      ∃ m, (fetchGo attempts base k fuel lastErr (backoffList base (k - 1)).reverse).sleeps
        = backoffList base m := by
  intro fuel
  induction fuel with
  | zero => intro k lastErr _; exact ⟨k - 1, by simp [fetchGo]⟩
  | succ n ih =>
      intro k lastErr hk
      have hacc : base * 2 ^ (k - 1) :: (backoffList base (k - 1)).reverse
          = (backoffList base ((k + 1) - 1)).reverse := by
        have h1 : (k + 1) - 1 = (k - 1) + 1 := by omega
        rw [h1, backoffList_succ]
        simp
      rw [fetchGo]
      cases hc : classifyAttempt (attempts k) with
      | success s => exact ⟨k - 1, by simp⟩
      | blocked s => exact ⟨k - 1, by simp⟩
      | retryTimeout =>
          dsimp only
          by_cases hn : n = 0
          · subst hn; exact ⟨k - 1, by simp⟩
          · rw [if_neg hn, hacc]
            exact ih (k + 1) (some LastErr.timeout) (by omega)
      | retryNet s =>
          dsimp only
          by_cases hn : n = 0
          · subst hn; exact ⟨k - 1, by simp⟩
          · rw [if_neg hn, hacc]
            exact ih (k + 1) (some (LastErr.netStatus s)) (by omega)
      | retryTransport t =>
          dsimp only
          by_cases hn : n = 0
          · subst hn; exact ⟨k - 1, by simp⟩
          · rw [if_neg hn, hacc]
            exact ih (k + 1) (some (LastErr.transport t)) (by omega)

theorem fetchGo_exhaust (attempts : Nat → AttemptResult) (base : ℚ) :
    ∀ (fuel k : Nat) (lastErr : Option LastErr) (acc : List ℚ), 1 ≤ fuel →
      (∀ j, k ≤ j → j < k + fuel → isRetryable (attempts j) = true) →
      (fetchGo attempts base k fuel lastErr acc).result
          = finalizeFetch (lastErrOf (attempts (k + fuel - 1)))
        ∧ (fetchGo attempts base k fuel lastErr acc).attemptsIssued = k + fuel - 1 := by
  intro fuel
  induction fuel with
  | zero => intro k lastErr acc h; omega
  | succ n ih =>
      intro k lastErr acc _ hall
      have hk : isRetryable (attempts k) = true := hall k le_rfl (by omega)
      rw [fetchGo]
      cases hc : classifyAttempt (attempts k) with
      | success s => rw [isRetryable, hc] at hk; simp at hk
      | blocked s => rw [isRetryable, hc] at hk; simp at hk
      | retryTimeout =>
          dsimp only
          by_cases hn : n = 0
          · subst hn
            have hle : lastErrOf (attempts k) = some .timeout := by rw [lastErrOf, hc]
            simp [hle]
          · rw [if_neg hn]
            have harith : k + (n + 1) - 1 = (k + 1) + n - 1 := by omega
            rw [harith]
            exact ih (k + 1) (some LastErr.timeout) (base * 2 ^ (k - 1) :: acc) (by omega)
              (fun j hj1 hj2 => hall j (by omega) (by omega))
      | retryNet s =>
          dsimp only
          by_cases hn : n = 0
          · subst hn
            have hle : lastErrOf (attempts k) = some (.netStatus s) := by rw [lastErrOf, hc]
            simp [hle]
          · rw [if_neg hn]
            have harith : k + (n + 1) - 1 = (k + 1) + n - 1 := by omega
            rw [harith]
            exact ih (k + 1) (some (LastErr.netStatus s)) (base * 2 ^ (k - 1) :: acc) (by omega)
              (fun j hj1 hj2 => hall j (by omega) (by omega))
      | retryTransport t =>
          dsimp only
          by_cases hn : n = 0
          · subst hn
            have hle : lastErrOf (attempts k) = some (.transport t) := by rw [lastErrOf, hc]
            simp [hle]
          · rw [if_neg hn]
            have harith : k + (n + 1) - 1 = (k + 1) + n - 1 := by omega
            rw [harith]
            exact ih (k + 1) (some (LastErr.transport t)) (base * 2 ^ (k - 1) :: acc) (by omega)
              (fun j hj1 hj2 => hall j (by omega) (by omega))

/-! ## Claim C7 -/

/-- Claim C7: a fetch with retry budget `max_retries` issues at most
`max_retries` attempts in total (the first attempt counts toward the
budget); the sleep separating attempt `k` from attempt `k + 1` lasts
`backoff_base * 2 ^ (k - 1)` seconds; when every attempt fails retryably,
all `max_retries` attempts are issued, and exhausting the budget on a
timeout yields the timeout failure while exhausting it on a network
failure re-raises the network error derived from the last response. -/
theorem spec_c7_retry_budget_backoff (attempts : Nat → AttemptResult) (base : ℚ) (n : Nat) :
    (fetchWithRetries attempts base n).attemptsIssued ≤ n
    ∧ (∃ m, (fetchWithRetries attempts base n).sleeps = backoffList base m)
    ∧ ((∀ j, 1 ≤ j → j ≤ n → isRetryable (attempts j) = true) → 1 ≤ n →
        (fetchWithRetries attempts base n).attemptsIssued = n
        ∧ (attempts n = .timeoutError → (fetchWithRetries attempts base n).result = .timeoutErr)
        ∧ (∀ s, attempts n = .response s → 400 ≤ s → s ≠ 403 → s ≠ 429 →
            (fetchWithRetries attempts base n).result = .networkErr (.fromStatus s))) := by
  refine ⟨?_, ?_, ?_⟩
  · have h := fetchGo_attempts_le attempts base n 1 none []
    simpa [fetchWithRetries] using h
  · have h0 : ([] : List ℚ) = (backoffList base (1 - 1)).reverse := by simp [backoffList]
    rw [fetchWithRetries, h0]
    exact fetchGo_sleeps_backoff attempts base n 1 none le_rfl
  · intro hall hn
    have h := fetchGo_exhaust attempts base n 1 none []
      (by omega) (fun j hj1 hj2 => hall j hj1 (by omega))
    have harith : 1 + n - 1 = n := by omega
    rw [harith] at h
    refine ⟨h.2, ?_, ?_⟩
    · intro ht
      rw [fetchWithRetries, h.1, ht]
      rfl
    · intro s hs h400 h403 h429
      rw [fetchWithRetries, h.1, hs]
      have hcl : classifyAttempt (.response s) = .retryNet s := by
        rw [classifyAttempt]
        rw [if_neg (by omega)]
        by_cases h5 : 500 ≤ s ∧ s < 600
        · rw [if_pos h5]
        · rw [if_neg h5, if_pos h400]
      rw [lastErrOf, hcl]
      rfl

/-- Witness for C7 at a concrete always-timing-out fetch with budget 2. -/
theorem spec_c7_witness :
    (fetchWithRetries (fun _ => AttemptResult.timeoutError) 1 2).attemptsIssued = 2
    ∧ (fetchWithRetries (fun _ => AttemptResult.timeoutError) 1 2).result
        = FetchResult.timeoutErr := by
  have h := (spec_c7_retry_budget_backoff (fun _ => AttemptResult.timeoutError) 1 2).2.2
    (fun j _ _ => rfl) (by omega)
  exact ⟨h.1, h.2.1 rfl⟩

/-! ## Claim C1 -/

/-- Claim C1, counterexample: a fetch answered with HTTP 404 on every
attempt and a budget of 3 issues 3 requests, not exactly one — the
client retries such statuses instead of failing immediately (the failure
itself is still a network failure). -/
theorem spec_c1_counterexample :
    (fetchWithRetries (fun _ => AttemptResult.response 404) 1 3).attemptsIssued = 3
    ∧ (fetchWithRetries (fun _ => AttemptResult.response 404) 1 3).attemptsIssued ≠ 1
    ∧ (fetchWithRetries (fun _ => AttemptResult.response 404) 1 3).result
        = FetchResult.networkErr (NetErrSrc.fromStatus 404) := by
  exact ⟨rfl, by decide, rfl⟩

/-- Claim C1, amended: a response status >= 400 that is neither 403, 429
nor 5xx raises a `NetworkAppError` that is caught and retried like a 5xx;
when every attempt yields such a status, the fetch fails with the network
failure derived from the last response only after issuing the full
`max_retries` attempts. -/
theorem spec_c1_amended (attempts : Nat → AttemptResult) (base : ℚ) (n s : Nat)
    (hresp : ∀ k, attempts k = .response s) (h400 : 400 ≤ s)
    (hnot5xx : ¬(500 ≤ s ∧ s < 600)) (h403 : s ≠ 403) (h429 : s ≠ 429) (hn : 1 ≤ n) :
    (fetchWithRetries attempts base n).result = .networkErr (.fromStatus s)
    ∧ (fetchWithRetries attempts base n).attemptsIssued = n := by
  have hcl : classifyAttempt (.response s) = .retryNet s := by
    rw [classifyAttempt]
    rw [if_neg (by omega)]
    rw [if_neg hnot5xx, if_pos h400]
  have h := fetchGo_exhaust attempts base n 1 none [] (by omega)
    (fun j _ _ => by rw [isRetryable, hresp j, hcl])
  have harith : 1 + n - 1 = n := by omega
  rw [harith] at h
  refine ⟨?_, h.2⟩
  rw [fetchWithRetries, h.1, hresp n, lastErrOf, hcl]
  rfl

/-- Witness for the amended C1 at status 404, budget 3. -/
theorem spec_c1_amended_witness :
    (fetchWithRetries (fun _ => AttemptResult.response 404) (1 / 2) 2).result
        = FetchResult.networkErr (NetErrSrc.fromStatus 404)
    ∧ (fetchWithRetries (fun _ => AttemptResult.response 404) (1 / 2) 2).attemptsIssued = 2 :=
  spec_c1_amended (fun _ => AttemptResult.response 404) (1 / 2) 2 404
    (fun _ => rfl) (by omega) (by omega) (by omega) (by omega) (by omega)

/-! ## Claim C2 -/

/-- Claim C2, counterexample: a structured fetch whose body fails to
decode yields the network failure, not a parse failure. -/
theorem spec_c2_counterexample :
    fetchJson ⟨.ok 200, 1, []⟩ .invalid = .error .network
    ∧ fetchJson ⟨.ok 200, 1, []⟩ .invalid ≠ .error .parse
    ∧ fetchJson ⟨.ok 200, 1, []⟩ .nonObject = .error .network
    ∧ fetchJson ⟨.ok 200, 1, []⟩ .nonObject ≠ .error .parse := by
  refine ⟨rfl, ?_, rfl, ?_⟩ <;> intro h <;> simp [fetchJson] at h

/-- Claim C2, amended: when the response body does not decode as JSON or
decodes to a non-object value, `fetch_json` fails with the taxonomy code
"network" (it raises `NetworkAppError`). -/
theorem spec_c2_amended (trace : FetchTrace) (s : Nat) (decode : BodyDecode)
    (hok : trace.result = .ok s) (hbad : decode = .invalid ∨ decode = .nonObject) :
    fetchJson trace decode = .error .network := by
  rw [fetchJson.eq_def, hok]
  rcases hbad with h | h <;> rw [h]

/-- Witness for the amended C2 at a concrete successful fetch with an
undecodable body. -/
theorem spec_c2_amended_witness :
    fetchJson ⟨FetchResult.ok 200, 1, []⟩ BodyDecode.invalid
      = Except.error AppErrorKind.network :=
  spec_c2_amended ⟨FetchResult.ok 200, 1, []⟩ 200 BodyDecode.invalid rfl (Or.inl rfl)

/-! ## Claim C6 -/

/-- Claim C6: a badge-tagged candidate (no prize confirmation required)
whose project page yields no explicit prize records is kept with exactly
one synthesized generic Winner prize attributed to the target hackathon's
name and URL; a fallback-scheduled candidate (confirmation required) whose
page yields no prize record resolves to `None`; and the drain silently
skips a `None` task — no event, no entry in the result list, no error. -/
theorem spec_c6_prize_confirmation :
    (∀ (fetchProject : String → Except AppErrorKind Project) (name url : String)
        (c : Candidate) (p : Project),
      fetchProject c.projectUrl = .ok p → p.prizes = [] →
      scrapeCandidate fetchProject name url c false
        = .ok (some { p with prizes := [⟨name, url, winnerPrizeName⟩] }))
    ∧ (∀ (fetchProject : String → Except AppErrorKind Project) (name url : String)
        (c : Candidate) (p : Project),
      fetchProject c.projectUrl = .ok p → p.prizes = [] →
      scrapeCandidate fetchProject name url c true = .ok none)
    ∧ (∀ (scrape : Candidate → Bool → Except AppErrorKind (Option Project)) (total : Nat)
        (t : ScrapeTask) (ts : List ScrapeTask) (winners : List Project)
        (events : List CrawlEvent),
      scrape t.candidate t.requiresPrizeConfirmation = .ok none →
      drainScrapes scrape total (t :: ts) winners events
        = drainScrapes scrape total ts winners events) := by
  refine ⟨?_, ?_, ?_⟩
  · intro fetchProject name url c p hfp hpz
    rw [scrapeCandidate.eq_def, hfp]
    simp [hpz]
  · intro fetchProject name url c p hfp hpz
    rw [scrapeCandidate.eq_def, hfp]
    simp [hpz]
  · intro scrape total t ts winners events hnone
    rw [drainScrapes, hnone]

/-- Witness for C6 at a concrete candidate whose page parses with an
empty prize list. -/
theorem spec_c6_witness :
    scrapeCandidate (fun _ => .ok emptyPrizeProjW) hackNameW hackUrlW candW false
      = .ok (some { emptyPrizeProjW with prizes := [⟨hackNameW, hackUrlW, winnerPrizeName⟩] })
    ∧ scrapeCandidate (fun _ => .ok emptyPrizeProjW) hackNameW hackUrlW candW true
      = .ok none
    ∧ drainScrapes (fun _ _ => .ok none) 1 [⟨candW, true⟩] [] []
      = drainScrapes (fun _ _ => .ok none) 1 [] [] [] := by
  refine ⟨?_, ?_, ?_⟩
  · exact spec_c6_prize_confirmation.1 _ hackNameW hackUrlW candW emptyPrizeProjW rfl rfl
  · exact spec_c6_prize_confirmation.2.1 _ hackNameW hackUrlW candW emptyPrizeProjW rfl rfl
  · exact spec_c6_prize_confirmation.2.2 _ 1 ⟨candW, true⟩ [] [] [] rfl

/-! ## Claim C10 -/

/-- Claim C10: a lookup id pulled from the queue with no persisted job row
is a no-op — no status transition, no persisted or broadcast progress
event — and the worker loop continues with the remaining queue items. -/
theorem spec_c10_missing_job_noop (crawl : String → CrawlRunOutcome) (now : Nat)
    (st : OrchState) (lookupId : String) (rest : List String)
    (h : getLookupJob st.jobs lookupId = none) :
    processLookup crawl now st lookupId = st
    ∧ workerLoop crawl now st (lookupId :: rest) = workerLoop crawl now st rest := by
  have h1 : processLookup crawl now st lookupId = st := by
    rw [processLookup.eq_def, h]
  exact ⟨h1, by rw [workerLoop, h1]⟩

/-- Witness for C10: an empty job table and a nonempty queue. -/
theorem spec_c10_witness :
    processLookup crawlBlockedW 5 ⟨[], [], []⟩ jobIdW = ⟨[], [], []⟩
    ∧ workerLoop crawlBlockedW 5 ⟨[], [], []⟩ [jobIdW] = workerLoop crawlBlockedW 5 ⟨[], [], []⟩ [] :=
  spec_c10_missing_job_noop crawlBlockedW 5 ⟨[], [], []⟩ jobIdW [] rfl

/-! ## Claim C9 -/

/-- Claim C9: when an active (`queued` or `started`) job already exists for
the same normalized target, submission returns that job unchanged — same
id, same status, no new row, no new event — re-enqueueing it only when it
is still `queued`; in particular, submitting the same target twice while
the first is still `started` returns the same job id both times. -/
theorem spec_c9_active_dedup (st : ApiState) (rawUrl : String) (cacheTtl now : Nat)
    (newId : String) (url : String) (active : Job)
    (hnorm : normalizeHackathonUrl rawUrl = .ok url)
    (hactive : getLatestActiveLookupForUrl st.jobs url = some active) :
    createLookup st rawUrl cacheTtl now newId
      = (.accepted active.id active.status,
          { st with
            queue := if active.status == .queued then st.queue ++ [active.id] else st.queue })
    ∧ (active.status = .started →
        (createLookup st rawUrl cacheTtl now newId).1 = .accepted active.id .started
        ∧ (createLookup (createLookup st rawUrl cacheTtl now newId).2 rawUrl cacheTtl
            now newId).1 = .accepted active.id .started) := by
  have hmain : createLookup st rawUrl cacheTtl now newId
      = (.accepted active.id active.status,
          { st with
            queue := if active.status == .queued then st.queue ++ [active.id] else st.queue }) := by
    rw [createLookup.eq_def, hnorm]
    dsimp only
    rw [hactive]
    dsimp only
    cases hq : (active.status == JobStatus.queued) <;> simp [hq]
  refine ⟨hmain, ?_⟩
  intro hstarted
  have hq : (active.status == JobStatus.queued) = false := by
    rw [hstarted]; rfl
  have hsnd : (createLookup st rawUrl cacheTtl now newId).2 = st := by
    rw [hmain, hq]
    rfl
  constructor
  · rw [hmain]
    dsimp only
    rw [hstarted]
  · rw [hsnd, hmain]
    dsimp only
    rw [hstarted]

/-- Witness for C9: the same target submitted twice while a `started` job
for it exists returns the `started` job's id both times. -/
theorem spec_c9_witness :
    (createLookup apiStateStartedW hackUrlW 0 9 newIdW).1
      = CreateLookupResponse.accepted jobIdW JobStatus.started
    ∧ (createLookup (createLookup apiStateStartedW hackUrlW 0 9 newIdW).2 hackUrlW 0 9
        newIdW).1 = CreateLookupResponse.accepted jobIdW JobStatus.started := by
  have h := (spec_c9_active_dedup apiStateStartedW hackUrlW 0 9 newIdW hackUrlW startedJobW
    (by rfl) (by rfl)).2 rfl
  exact h

/-! ## Claim C8 -/

theorem getLookupJob_updateJob (jobs : List Job) (lookupId : String) (f : Job → Job)
    (hf : ∀ j, (f j).id = j.id) :
    getLookupJob (updateJob jobs lookupId f) lookupId = (getLookupJob jobs lookupId).map f := by
  induction jobs with
  | nil => rfl
  | cons j rest ih =>
      by_cases hj : j.id = lookupId
      · have hbeq : (j.id == lookupId) = true := beq_iff_eq.mpr hj
        have hbeqf : ((f j).id == lookupId) = true := by rw [hf j]; exact hbeq
        simp [getLookupJob, updateJob, List.find?_cons, hbeq, hbeqf, hj]
      · have hbeq : (j.id == lookupId) = false := by
          simp [hj]
        simpa [getLookupJob, updateJob, List.find?_cons, hbeq, hj] using ih

/-- Claim C8: an HTTP 429 (or 403) answer makes the fetch fail at once as a
blocked failure (a single request, no sleeps); a crawl whose scheduled
project fetches are all denied fails with taxonomy code blocked; and the
worker persists that crawl failure as the job's terminal `failed` state
with the blocked error code. -/
theorem spec_c8_blocked_pipeline :
    (∀ (attempts : Nat → AttemptResult) (base : ℚ) (n s : Nat),
      attempts 1 = .response s → s = 403 ∨ s = 429 → 1 ≤ n →
      fetchWithRetries attempts base n = ⟨.blockedErr s, 1, []⟩)
    ∧ (∀ (env : CrawlEnv) (fuel : Nat),
      (∀ u, env.fetchProject u = .error .blocked) → scheduledUrls env fuel ≠ [] →
      scrapeHackathon env fuel = .error .blocked)
    ∧ (∀ (crawl : String → CrawlRunOutcome) (now : Nat) (st : OrchState) (lookupId : String)
        (job : Job),
      getLookupJob st.jobs lookupId = some job → crawl job.hackathonUrl = .err .blocked →
      ∃ job2, getLookupJob (processLookup crawl now st lookupId).jobs lookupId = some job2
        ∧ job2.status = .failed ∧ job2.errorCode = some (errCode .blocked)) := by
  refine ⟨?_, ?_, ?_⟩
  · intro attempts base n s hresp hbl hn
    obtain ⟨m, rfl⟩ : ∃ m, n = m + 1 := ⟨n - 1, by omega⟩
    have hcl : classifyAttempt (attempts 1) = .blocked s := by
      rw [hresp, classifyAttempt, if_pos hbl]
    rw [fetchWithRetries, fetchGo, hcl]
    rfl
  · intro env fuel hfp hsched
    rw [scheduledUrls.eq_def] at hsched
    rw [scrapeHackathon.eq_def]
    cases hcs : crawlSchedule env fuel with
    | error e => rw [hcs] at hsched; simp at hsched
    | ok st =>
        rw [hcs] at hsched
        dsimp only at hsched
        cases hts : st.tasks with
        | nil => rw [hts] at hsched; simp at hsched
        | cons t ts =>
            dsimp only
            rw [hts, drainScrapes]
            have hsc : scrapeCandidate env.fetchProject env.hackathonName env.normalizedUrl
                t.candidate t.requiresPrizeConfirmation = .error .blocked := by
              rw [scrapeCandidate.eq_def, hfp]
            rw [hsc]
  · intro crawl now st lookupId job hjob hcrawl
    rw [processLookup.eq_def, hjob]
    dsimp only
    rw [hcrawl]
    dsimp only [publishEvent, setLookupFailed, setLookupStarted]
    have h1 := getLookupJob_updateJob st.jobs lookupId
      (fun j => { j with status := JobStatus.started, startedAt := some now }) (fun j => rfl)
    have h2 := getLookupJob_updateJob
      (updateJob st.jobs lookupId
        (fun j => { j with status := JobStatus.started, startedAt := some now }))
      lookupId
      (fun j =>
        { j with
          status := JobStatus.failed
          finishedAt := some now
          errorCode := some (errCode AppErrorKind.blocked)
          errorMessage := some failedMessage })
      (fun j => rfl)
    rw [h2, h1, hjob]
    exact ⟨_, rfl, rfl, rfl⟩

/-- Witness for C8: a 429-on-every-attempt fetch; the crawl `envBlockedW`
whose single scheduled fetch is denied; and a queued job whose crawl fails
blocked. -/
theorem spec_c8_witness :
    fetchWithRetries (fun _ => AttemptResult.response 429) 1 3
      = ⟨FetchResult.blockedErr 429, 1, []⟩
    ∧ scrapeHackathon envBlockedW 1 = Except.error AppErrorKind.blocked
    ∧ ∃ job2, getLookupJob (processLookup crawlBlockedW 5 orchStateW jobIdW).jobs jobIdW
        = some job2 ∧ job2.status = .failed ∧ job2.errorCode = some (errCode .blocked) := by
  refine ⟨?_, ?_, ?_⟩
  · exact spec_c8_blocked_pipeline.1 (fun _ => AttemptResult.response 429) 1 3 429 rfl
      (Or.inr rfl) (by omega)
  · exact spec_c8_blocked_pipeline.2.1 envBlockedW 1 (fun _ => rfl) (by decide)
  · exact spec_c8_blocked_pipeline.2.2 crawlBlockedW 5 orchStateW jobIdW queuedJobW rfl rfl

/-! ## Claim C4 -/

theorem scheduleCandidate_inv (st : CrawlSchedState) (c : Candidate) (r : Bool)
    (h : schedInv st) : schedInv (scheduleCandidate st c r) := by
  rw [scheduleCandidate]
  split
  · exact h
  · rename_i hmem
    obtain ⟨h1, h2, h3⟩ := h
    refine ⟨?_, ?_, ?_⟩
    · simp [h1]
    · simp [List.nodup_append, h2]
      exact hmem
    · simp [h3]

theorem foldl_record_inv (l : List Candidate) (st : CrawlSchedState) (h : schedInv st) :
    schedInv (l.foldl recordWinnerEntry st) := by
  induction l generalizing st with
  | nil => exact h
  | cons e es ih => exact ih _ (scheduleCandidate_inv _ e false h)

theorem foldl_schedule_inv (l : List Candidate) (r : Bool) (st : CrawlSchedState)
    (h : schedInv st) : schedInv (l.foldl (fun s c => scheduleCandidate s c r) st) := by
  induction l generalizing st with
  | nil => exact h
  | cons e es ih => exact ih _ (scheduleCandidate_inv _ e r h)

theorem processGalleryPage_inv (st : CrawlSchedState) (u : String) (pg : GalleryParseResult)
    (h : schedInv st) : schedInv (processGalleryPage st u pg) :=
  foldl_record_inv pg.winnerEntries _ h

theorem walkPages_inv (F : String → Except AppErrorKind GalleryParseResult) :
    ∀ (fuel : Nat) (p : Option String) (st st' : CrawlSchedState),
      walkPages F fuel p st = .ok st' → schedInv st → schedInv st' := by
  intro fuel
  induction fuel with
  | zero =>
      intro p st st' h hinv
      cases p with
      | none => rw [walkPages] at h; cases h; exact hinv
      | some u => rw [walkPages] at h; cases h; exact hinv
  | succ n ih =>
      intro p st st' h hinv
      cases p with
      | none => rw [walkPages] at h; cases h; exact hinv
      | some u =>
          rw [walkPages] at h
          by_cases hv : u ∈ st.visitedPages
          · rw [if_pos hv] at h; cases h; exact hinv
          · rw [if_neg hv] at h
            cases hF : F u with
            | error e => rw [hF] at h; cases h
            | ok pg =>
                rw [hF] at h
                exact ih _ _ _ h (processGalleryPage_inv _ u pg hinv)

theorem fallbackStep_inv (env : CrawlEnv) (st : CrawlSchedState) (h : schedInv st) :
    schedInv (fallbackStep env st) := by
  rw [fallbackStep]
  split
  · exact foldl_schedule_inv _ true _ h
  · split
    · exact h
    · exact h

theorem initCrawlState_inv : schedInv initCrawlState :=
  ⟨rfl, List.nodup_nil, rfl⟩

/-- Claim C4: within a single crawl, no `project_url` is scheduled for more
than one deep fetch — the urls of the scheduled tasks are pairwise
distinct, however many gallery pages or detection passes mention them. -/
theorem spec_c4_schedule_dedup (env : CrawlEnv) (fuel : Nat) :
    (scheduledUrls env fuel).Nodup := by
  rw [scheduledUrls.eq_def]
  cases hcs : crawlSchedule env fuel with
  | error e => simp
  | ok st =>
      have hinv : schedInv st := by
        rw [crawlSchedule] at hcs
        cases hw : walkPages env.fetchPage fuel (some env.galleryUrl) initCrawlState with
        | error e => rw [hw] at hcs; simp [Except.map] at hcs
        | ok st0 =>
            rw [hw] at hcs
            simp only [Except.map] at hcs
            cases hcs
            exact fallbackStep_inv env st0 (walkPages_inv env.fetchPage fuel _ _ st0 hw
              initCrawlState_inv)
      dsimp only
      rw [hinv.1]
      exact hinv.2.1

/-! ## Claim C5 -/

theorem scheduleCandidate_visited (st : CrawlSchedState) (c : Candidate) (r : Bool) :
    (scheduleCandidate st c r).visitedPages = st.visitedPages := by
  rw [scheduleCandidate]; split <;> rfl

theorem scheduleCandidate_events (st : CrawlSchedState) (c : Candidate) (r : Bool) :
    (scheduleCandidate st c r).events = st.events := by
  rw [scheduleCandidate]; split <;> rfl

theorem scheduleCandidate_found (st : CrawlSchedState) (c : Candidate) (r : Bool) :
    (scheduleCandidate st c r).foundGalleryWinners = st.foundGalleryWinners := by
  rw [scheduleCandidate]; split <;> rfl

theorem recordWinnerEntry_visited (st : CrawlSchedState) (e : Candidate) :
    (recordWinnerEntry st e).visitedPages = st.visitedPages := by
  rw [recordWinnerEntry, scheduleCandidate_visited]

theorem recordWinnerEntry_found (st : CrawlSchedState) (e : Candidate) :
    (recordWinnerEntry st e).foundGalleryWinners = true := by
  rw [recordWinnerEntry, scheduleCandidate_found]

theorem recordWinnerEntry_events (st : CrawlSchedState) (e : Candidate) :
    (recordWinnerEntry st e).events
      = st.events ++ [.winnerProjectFound e.projectUrl false] := by
  rw [recordWinnerEntry, scheduleCandidate_events]

theorem foldl_record_visited (l : List Candidate) (st : CrawlSchedState) :
    (l.foldl recordWinnerEntry st).visitedPages = st.visitedPages := by
  induction l generalizing st with
  | nil => rfl
  | cons e es ih => rw [List.foldl_cons, ih, recordWinnerEntry_visited]

theorem foldl_record_found_true (l : List Candidate) (st : CrawlSchedState)
    (h : st.foundGalleryWinners = true) :
    (l.foldl recordWinnerEntry st).foundGalleryWinners = true := by
  induction l generalizing st with
  | nil => exact h
  | cons e es ih => rw [List.foldl_cons]; exact ih _ (recordWinnerEntry_found st e)

theorem foldl_record_found (l : List Candidate) (st : CrawlSchedState) :
    (l.foldl recordWinnerEntry st).foundGalleryWinners
      = (st.foundGalleryWinners || !l.isEmpty) := by
  cases l with
  | nil => simp
  | cons e es =>
      rw [List.foldl_cons, foldl_record_found_true es _ (recordWinnerEntry_found st e)]
      simp

theorem foldl_record_events_pred (l : List Candidate) (st : CrawlSchedState)
    (h : ∀ e ∈ st.events, isFallbackPassEvent e = false) :
    ∀ e ∈ (l.foldl recordWinnerEntry st).events, isFallbackPassEvent e = false := by
  induction l generalizing st with
  | nil => exact h
  | cons c cs ih =>
      rw [List.foldl_cons]
      refine ih _ ?_
      rw [recordWinnerEntry_events]
      intro e he
      rcases List.mem_append.mp he with h1 | h1
      · exact h e h1
      · rw [List.mem_singleton.mp h1]; rfl

theorem processGalleryPage_visited (st : CrawlSchedState) (u : String)
    (pg : GalleryParseResult) :
    (processGalleryPage st u pg).visitedPages = st.visitedPages := by
  rw [processGalleryPage]
  dsimp only
  rw [foldl_record_visited]

theorem processGalleryPage_found (st : CrawlSchedState) (u : String)
    (pg : GalleryParseResult) :
    (processGalleryPage st u pg).foundGalleryWinners
      = (st.foundGalleryWinners || !pg.winnerEntries.isEmpty) := by
  rw [processGalleryPage]
  dsimp only
  rw [foldl_record_found]

theorem processGalleryPage_events_pred (st : CrawlSchedState) (u : String)
    (pg : GalleryParseResult) (h : ∀ e ∈ st.events, isFallbackPassEvent e = false) :
    ∀ e ∈ (processGalleryPage st u pg).events, isFallbackPassEvent e = false := by
  rw [processGalleryPage]
  dsimp only
  intro e he
  rcases List.mem_append.mp he with h1 | h1
  · exact foldl_record_events_pred pg.winnerEntries
      { st with
        scannedPages := st.scannedPages + 1
        scannedProjects := st.scannedProjects + pg.scannedProjects
        allCandidates := st.allCandidates ++ pg.allEntries }
      (fun x hx => h x hx) e h1
  · rw [List.mem_singleton.mp h1]; rfl

theorem walkPages_visited_sub (F : String → Except AppErrorKind GalleryParseResult) :
    ∀ (fuel : Nat) (p : Option String) (st st' : CrawlSchedState),
      walkPages F fuel p st = .ok st' → ∀ u, u ∈ st.visitedPages → u ∈ st'.visitedPages := by
  intro fuel
  induction fuel with
  | zero =>
      intro p st st' h u hu
      cases p with
      | none => rw [walkPages] at h; cases h; exact hu
      | some v => rw [walkPages] at h; cases h; exact hu
  | succ n ih =>
      intro p st st' h u hu
      cases p with
      | none => rw [walkPages] at h; cases h; exact hu
      | some v =>
          rw [walkPages] at h
          by_cases hv : v ∈ st.visitedPages
          · rw [if_pos hv] at h; cases h; exact hu
          · rw [if_neg hv] at h
            cases hF : F v with
            | error e => rw [hF] at h; cases h
            | ok pg =>
                rw [hF] at h
                refine ih _ _ _ h u ?_
                rw [processGalleryPage_visited]
                exact List.mem_append.mpr (Or.inl hu)

theorem walkPages_found_iff (F : String → Except AppErrorKind GalleryParseResult) :
    ∀ (fuel : Nat) (p : Option String) (st st' : CrawlSchedState),
      walkPages F fuel p st = .ok st' →
      (st'.foundGalleryWinners = true ↔
        st.foundGalleryWinners = true
        ∨ ∃ u pg, u ∈ st'.visitedPages ∧ u ∉ st.visitedPages ∧ F u = .ok pg
            ∧ pg.winnerEntries ≠ []) := by
  intro fuel
  induction fuel with
  | zero =>
      intro p st st' h
      have hst : st' = st := by
        cases p with
        | none => rw [walkPages] at h; cases h; rfl
        | some v => rw [walkPages] at h; cases h; rfl
      subst hst
      constructor
      · exact Or.inl
      · rintro (hf | ⟨u, pg, hmem, hnmem, -, -⟩)
        · exact hf
        · exact absurd hmem hnmem
  | succ n ih =>
      intro p st st' h
      cases p with
      | none =>
          rw [walkPages] at h; cases h
          constructor
          · exact Or.inl
          · rintro (hf | ⟨u, pg, hmem, hnmem, -, -⟩)
            · exact hf
            · exact absurd hmem hnmem
      | some v =>
          rw [walkPages] at h
          by_cases hv : v ∈ st.visitedPages
          · rw [if_pos hv] at h; cases h
            constructor
            · exact Or.inl
            · rintro (hf | ⟨u, pg, hmem, hnmem, -, -⟩)
              · exact hf
              · exact absurd hmem hnmem
          · rw [if_neg hv] at h
            cases hF : F v with
            | error e => rw [hF] at h; cases h
            | ok pg =>
                rw [hF] at h
                dsimp only at h
                have hiff := ih _ _ _ h
                have hvis2 : (processGalleryPage
                    { st with visitedPages := st.visitedPages ++ [v] } v pg).visitedPages
                    = st.visitedPages ++ [v] := processGalleryPage_visited _ v pg
                have hfound2 : (processGalleryPage
                    { st with visitedPages := st.visitedPages ++ [v] } v pg).foundGalleryWinners
                    = (st.foundGalleryWinners || !pg.winnerEntries.isEmpty) :=
                  processGalleryPage_found _ v pg
                have hsub := walkPages_visited_sub F n _ _ _ h
                constructor
                · intro hf
                  rcases hiff.mp hf with h2 | ⟨w, pgw, hwmem, hwnmem, hFw, hwin⟩
                  · rw [hfound2] at h2
                    simp only [Bool.or_eq_true] at h2
                    rcases h2 with h3 | h3
                    · exact Or.inl h3
                    · have hvmem : v ∈ st'.visitedPages := by
                        refine hsub v ?_
                        rw [hvis2]
                        exact List.mem_append.mpr (Or.inr (List.mem_singleton.mpr rfl))
                      have hwinne : pg.winnerEntries ≠ [] := by
                        intro hnil
                        rw [hnil] at h3
                        simp at h3
                      exact Or.inr ⟨v, pg, hvmem, hv, hF, hwinne⟩
                  · have hwn : w ∉ st.visitedPages := by
                      rw [hvis2] at hwnmem
                      intro hmem
                      exact hwnmem (List.mem_append.mpr (Or.inl hmem))
                    exact Or.inr ⟨w, pgw, hwmem, hwn, hFw, hwin⟩
                · intro hor
                  rcases hor with hf | ⟨w, pgw, hwmem, hwnmem, hFw, hwin⟩
                  · refine hiff.mpr (Or.inl ?_)
                    rw [hfound2, hf]
                    rfl
                  · by_cases hwv : w = v
                    · subst hwv
                      rw [hF] at hFw
                      cases hFw
                      refine hiff.mpr (Or.inl ?_)
                      rw [hfound2]
                      have hne : pg.winnerEntries.isEmpty = false := by
                        cases hpe : pg.winnerEntries with
                        | nil => exact absurd hpe hwin
                        | cons a l => rfl
                      rw [hne]
                      simp
                    · have hwn : w ∉ (processGalleryPage
                          { st with visitedPages := st.visitedPages ++ [v] } v pg).visitedPages := by
                        rw [hvis2]
                        intro hmem
                        rcases List.mem_append.mp hmem with h1 | h1
                        · exact hwnmem h1
                        · exact hwv (List.mem_singleton.mp h1)
                      exact hiff.mpr (Or.inr ⟨w, pgw, hwmem, hwn, hFw, hwin⟩)

theorem walkPages_events_pred (F : String → Except AppErrorKind GalleryParseResult) :
    ∀ (fuel : Nat) (p : Option String) (st st' : CrawlSchedState),
      walkPages F fuel p st = .ok st' →
      (∀ e ∈ st.events, isFallbackPassEvent e = false) →
      ∀ e ∈ st'.events, isFallbackPassEvent e = false := by
  intro fuel
  induction fuel with
  | zero =>
      intro p st st' h hp
      cases p with
      | none => rw [walkPages] at h; cases h; exact hp
      | some v => rw [walkPages] at h; cases h; exact hp
  | succ n ih =>
      intro p st st' h hp
      cases p with
      | none => rw [walkPages] at h; cases h; exact hp
      | some v =>
          rw [walkPages] at h
          by_cases hv : v ∈ st.visitedPages
          · rw [if_pos hv] at h; cases h; exact hp
          · rw [if_neg hv] at h
            cases hF : F v with
            | error e => rw [hF] at h; cases h
            | ok pg =>
                rw [hF] at h
                exact ih _ _ _ h (processGalleryPage_events_pred _ v pg hp)

theorem foldl_schedule_events (l : List Candidate) (r : Bool) (st : CrawlSchedState) :
    (l.foldl (fun s c => scheduleCandidate s c r) st).events = st.events := by
  induction l generalizing st with
  | nil => rfl
  | cons c cs ih => rw [List.foldl_cons, ih, scheduleCandidate_events]

/-- Claim C5: in the crawl's scheduling phase, `found_gallery_winners`
holds exactly when some visited gallery page carries a badge-tagged winner
entry; when that is the case the fallback decision is a no-op (no fallback
pass, no fallback event anywhere in the crawl's events); with no badge
winner and winners not believed announced, the decision only emits
`winners_not_announced`; and the fallback pass (with its event) runs only
with no badge winner and winners announced. -/
theorem spec_c5_fallback_exclusivity (env : CrawlEnv) (fuel : Nat) (st : CrawlSchedState)
    (h : walkPages env.fetchPage fuel (some env.galleryUrl) initCrawlState = .ok st) :
    (st.foundGalleryWinners = true ↔
      ∃ u pg, u ∈ st.visitedPages ∧ env.fetchPage u = .ok pg ∧ pg.winnerEntries ≠ [])
    ∧ ((∃ u pg, u ∈ st.visitedPages ∧ env.fetchPage u = .ok pg ∧ pg.winnerEntries ≠ []) →
        fallbackStep env st = st
        ∧ ∀ e ∈ (fallbackStep env st).events, isFallbackPassEvent e = false)
    ∧ (st.foundGalleryWinners = false → env.winnersAnnounced = false →
        fallbackStep env st = { st with events := st.events ++ [.winnersNotAnnounced] })
    ∧ (st.foundGalleryWinners = false → env.winnersAnnounced = true →
        (fallbackStep env st).events
          = st.events ++ [.winnerDetectionFallback (dedupByUrl st.allCandidates).length]) := by
  have hiff0 := walkPages_found_iff env.fetchPage fuel _ _ _ h
  have hiff : st.foundGalleryWinners = true ↔
      ∃ u pg, u ∈ st.visitedPages ∧ env.fetchPage u = .ok pg ∧ pg.winnerEntries ≠ [] := by
    rw [hiff0]
    constructor
    · rintro (hf | ⟨u, pg, hmem, -, hFu, hwin⟩)
      · simp [initCrawlState] at hf
      · exact ⟨u, pg, hmem, hFu, hwin⟩
    · rintro ⟨u, pg, hmem, hFu, hwin⟩
      exact Or.inr ⟨u, pg, hmem, by simp [initCrawlState], hFu, hwin⟩
  refine ⟨hiff, ?_, ?_, ?_⟩
  · intro hex
    have hfound : st.foundGalleryWinners = true := hiff.mpr hex
    have hid : fallbackStep env st = st := by
      rw [fallbackStep, hfound]
      simp
    refine ⟨hid, ?_⟩
    rw [hid]
    exact walkPages_events_pred env.fetchPage fuel _ _ _ h (by simp [initCrawlState])
  · intro hfound hann
    rw [fallbackStep, hfound, hann]
    simp
  · intro hfound hann
    rw [fallbackStep, hfound, hann]
    simp [foldl_schedule_events]

/-- Witness for C5 at a one-page crawl with no badge winners and winners
not announced: the decision step emits exactly `winners_not_announced`. -/
theorem spec_c5_witness :
    fallbackStep envNotAnnouncedW stNotAnnouncedW
      = { stNotAnnouncedW with
          events := stNotAnnouncedW.events ++ [CrawlEvent.winnersNotAnnounced] } :=
  (spec_c5_fallback_exclusivity envNotAnnouncedW 1 stNotAnnouncedW rfl).2.2.1 rfl rfl

/-! ## Claim C3: normalization lemmas -/

theorem dropWhile_eq_self_of_all (p : Char → Bool) (l : List Char)
    (h : ∀ c ∈ l, p c = false) : l.dropWhile p = l := by
  cases l with
  | nil => rfl
  | cons a l => rw [List.dropWhile_cons, h a (by simp), if_neg (by simp)]

theorem trimChars_eq_self (l : List Char) (h : ∀ c ∈ l, isSpaceChar c = false) :
    trimChars l = l := by
  rw [trimChars, dropWhile_eq_self_of_all isSpaceChar l h,
    dropWhile_eq_self_of_all isSpaceChar l.reverse
      (fun c hc => h c (List.mem_reverse.mp hc)),
    List.reverse_reverse]

theorem startsWith_http_of_https (l : List Char) :
    startsWithChars schemeHttpChars (schemeHttpsChars ++ l) = false := rfl

theorem startsWith_https_self (l : List Char) :
    startsWithChars schemeHttpsChars (schemeHttpsChars ++ l) = true := by
  simp [schemeHttpsChars, startsWithChars]

theorem splitScheme_https (l : List Char) :
    splitSchemeChars (schemeHttpsChars ++ l) = some (['h', 't', 't', 'p', 's'], l) := by
  rw [splitSchemeChars, startsWith_http_of_https, if_neg (by simp),
    if_pos (by rw [startsWith_https_self])]
  simp [schemeHttpsChars]

theorem splitFirstChar_of_not_mem (c : Char) (l : List Char) (h : ∀ x ∈ l, x ≠ c) :
    splitFirstChar c l = (l, []) := by
  induction l with
  | nil => rfl
  | cons x xs ih =>
      rw [splitFirstChar, if_neg (by simp [beq_eq_false_iff_ne.mpr (h x (by simp))]),
        ih (fun y hy => h y (by simp [hy]))]

theorem splitFirstChar_append (c : Char) (a z : List Char) (h : ∀ x ∈ a, x ≠ c) :
    splitFirstChar c (a ++ c :: z) = (a, z) := by
  induction a with
  | nil => simp [splitFirstChar]
  | cons x xs ih =>
      rw [List.cons_append, splitFirstChar,
        if_neg (by simp [beq_eq_false_iff_ne.mpr (h x (by simp))]),
        ih (fun y hy => h y (by simp [hy]))]

theorem splitNetloc_append (a b : List Char) (ha : ∀ c ∈ a, isNetlocEnd c = false)
    (hb : b = [] ∨ ∃ d ds, b = d :: ds ∧ isNetlocEnd d = true) :
    splitNetloc (a ++ b) = (a, b) := by
  induction a with
  | nil =>
      rcases hb with rfl | ⟨d, ds, rfl, hd⟩
      · rfl
      · simp [splitNetloc, List.takeWhile_cons, List.dropWhile_cons, hd]
  | cons x xs ih =>
      have hx : isNetlocEnd x = false := ha x (by simp)
      have ih2 := ih (fun c hc => ha c (by simp [hc]))
      rw [splitNetloc] at ih2 ⊢
      simp only [List.cons_append, List.takeWhile_cons, List.dropWhile_cons, hx]
      simp only [Prod.mk.injEq] at ih2
      simp [ih2.1, ih2.2]

theorem containsChar_eq_false (c : Char) (l : List Char) (h : ∀ x ∈ l, x ≠ c) :
    containsChar c l = false := by
  simp only [containsChar, List.any_eq_false]
  intro x hx
  simp [beq_eq_false_iff_ne.mpr (h x hx)]

theorem splitFirstChar_fst_sub (c : Char) (l : List Char) :
    ∀ x ∈ (splitFirstChar c l).1, x ∈ l := by
  induction l with
  | nil => intro x hx; exact absurd hx (by simp [splitFirstChar])
  | cons a as ih =>
      intro x hx
      rw [splitFirstChar] at hx
      by_cases hac : (a == c) = true
      · rw [if_pos hac] at hx
        exact absurd hx (by simp)
      · rw [if_neg hac] at hx
        rcases List.mem_cons.mp hx with rfl | hx2
        · simp
        · simp [ih x hx2]

theorem splitParamsChars_no_semi (p : List Char) (h : ∀ x ∈ p, x ≠ ';') :
    splitParamsChars p = (p, []) := by
  rw [splitParamsChars]
  cases hr : rsplitLastChar '/' p with
  | none =>
      rw [if_neg (by rw [containsChar_eq_false ';' p h]; simp)]
  | some pr =>
      have hseg : ∀ x ∈ pr.2, x ≠ ';' := by
        rw [rsplitLastChar] at hr
        by_cases hcp : containsChar '/' p = true
        · rw [if_pos hcp] at hr
          have hpr : pr = ((splitFirstChar '/' p.reverse).2.reverse,
              (splitFirstChar '/' p.reverse).1.reverse) := by
            cases hr; rfl
          intro x hx
          rw [hpr] at hx
          have : x ∈ (splitFirstChar '/' p.reverse).1 := List.mem_reverse.mp hx
          exact h x (List.mem_reverse.mp (splitFirstChar_fst_sub '/' p.reverse x this))
        · rw [if_neg hcp] at hr
          cases hr
      dsimp only
      rw [if_neg (by rw [containsChar_eq_false ';' pr.2 hseg]; simp)]

theorem rstripSlash_eq_self (l : List Char) (h : l.getLast? ≠ some '/') :
    rstripSlashChars l = l := by
  cases hr : l.reverse with
  | nil =>
      have : l = [] := List.reverse_eq_nil_iff.mp hr
      subst this; rfl
  | cons x xs =>
      have hx : x ≠ '/' := by
        intro hxe
        apply h
        rw [← List.head?_reverse, hr, hxe]
        rfl
      rw [rstripSlashChars, hr, List.dropWhile_cons,
        if_neg (by simp [beq_eq_false_iff_ne.mpr hx]), ← hr, List.reverse_reverse]

theorem rstripSlash_append_slash (l : List Char) :
    rstripSlashChars (l ++ ['/']) = rstripSlashChars l := by
  rw [rstripSlashChars, rstripSlashChars, List.reverse_append]
  simp [List.dropWhile_cons]

theorem splitFirstChar_fst_append (c : Char) (a b : List Char) (h : ∀ x ∈ a, x ≠ c) :
    (splitFirstChar c (a ++ b)).1 = a ++ (splitFirstChar c b).1 := by
  induction a with
  | nil => rfl
  | cons x xs ih =>
      rw [List.cons_append, splitFirstChar,
        if_neg (by simp [beq_eq_false_iff_ne.mpr (h x (by simp))])]
      dsimp only
      rw [ih (fun y hy => h y (by simp [hy])), List.cons_append]

theorem normalizeParsed_shape (scheme rest out : List Char)
    (h : normalizeParsed scheme rest = .ok out) :
    ∃ netloc path, out = scheme ++ ':' :: '/' :: '/' :: (netloc ++ path) := by
  rw [normalizeParsed] at h
  dsimp only at h
  by_cases hbr : ((containsChar '[' (splitNetloc rest).1
        && !containsChar ']' (splitNetloc rest).1)
      || (containsChar ']' (splitNetloc rest).1
        && !containsChar '[' (splitNetloc rest).1)) = true
  · rw [if_pos hbr] at h; simp at h
  · rw [if_neg hbr] at h
    by_cases h2 : ((splitNetloc rest).1).isEmpty = true
    · rw [if_pos h2] at h; simp at h
    · rw [if_neg h2] at h
      by_cases h3 : (!endsWithChars devpostDomainChars (lowerChars (splitNetloc rest).1))
          = true
      · rw [if_pos h3] at h; simp at h
      · rw [if_neg h3] at h
        simp only [Except.ok.injEq] at h
        exact ⟨_, _, h.symm⟩

theorem normalizeParsed_structured (host rest extra : List Char)
    (hhost_ne : host ≠ [])
    (hhost : ∀ c ∈ host, isNetlocEnd c = false)
    (hbrk : ∀ c ∈ host, c ≠ '[' ∧ c ≠ ']')
    (hdom : endsWithChars devpostDomainChars (lowerChars host) = true)
    (hrest : ∀ c ∈ rest, c ≠ '?' ∧ c ≠ '#' ∧ c ≠ ';')
    (hshape : rest = [] ∨ (∃ r', rest = '/' :: r') ∧ rest.getLast? ≠ some '/')
    (hextra : extra = [] ∨ extra = ['/'] ∨ (∃ q, extra = '?' :: q) ∨ ∃ f, extra = '#' :: f) :
    normalizeParsed ['h', 't', 't', 'p', 's'] (host ++ (rest ++ extra))
      = .ok (schemeHttpsChars ++ host ++ rest) := by
  have hsplit : splitNetloc (host ++ (rest ++ extra)) = (host, rest ++ extra) := by
    refine splitNetloc_append host (rest ++ extra) hhost ?_
    rcases hshape with rfl | ⟨⟨r', rfl⟩, -⟩
    · rw [List.nil_append]
      rcases hextra with rfl | rfl | ⟨q, rfl⟩ | ⟨f, rfl⟩
      · exact Or.inl rfl
      · exact Or.inr ⟨'/', [], rfl, rfl⟩
      · exact Or.inr ⟨'?', q, rfl, rfl⟩
      · exact Or.inr ⟨'#', f, rfl, rfl⟩
    · exact Or.inr ⟨'/', r' ++ extra, by simp, rfl⟩
  have hrestq : ∀ c ∈ rest, c ≠ '?' := fun c hc => (hrest c hc).1
  have hresth : ∀ c ∈ rest, c ≠ '#' := fun c hc => (hrest c hc).2.1
  have hrests : ∀ c ∈ rest, c ≠ ';' := fun c hc => (hrest c hc).2.2
  have hpathParams : (splitFirstChar '?' (splitFirstChar '#' (rest ++ extra)).1).1 = rest
      ∨ (splitFirstChar '?' (splitFirstChar '#' (rest ++ extra)).1).1 = rest ++ ['/'] := by
    rcases hextra with rfl | rfl | ⟨q, rfl⟩ | ⟨f, rfl⟩
    · rw [List.append_nil, splitFirstChar_of_not_mem '#' rest hresth]
      rw [splitFirstChar_of_not_mem '?' rest hrestq]
      exact Or.inl rfl
    · rw [splitFirstChar_of_not_mem '#' (rest ++ ['/'])
        (by intro x hx; rcases List.mem_append.mp hx with h1 | h1
            · exact hresth x h1
            · rw [List.mem_singleton.mp h1]; decide)]
      rw [splitFirstChar_of_not_mem '?' (rest ++ ['/'])
        (by intro x hx; rcases List.mem_append.mp hx with h1 | h1
            · exact hrestq x h1
            · rw [List.mem_singleton.mp h1]; decide)]
      exact Or.inr rfl
    · rw [splitFirstChar_fst_append '#' rest ('?' :: q) hresth]
      have hq : (splitFirstChar '#' ('?' :: q)).1 = '?' :: (splitFirstChar '#' q).1 := by
        rw [splitFirstChar, if_neg (by decide)]
      rw [hq, splitFirstChar_append '?' rest _ hrestq]
      exact Or.inl rfl
    · rw [splitFirstChar_append '#' rest f hresth,
        splitFirstChar_of_not_mem '?' rest hrestq]
      exact Or.inl rfl
  have hpsplit : (splitParamsChars
        (splitFirstChar '?' (splitFirstChar '#' (rest ++ extra)).1).1).1 = rest
      ∨ (splitParamsChars
        (splitFirstChar '?' (splitFirstChar '#' (rest ++ extra)).1).1).1 = rest ++ ['/'] := by
    rcases hpathParams with hpp | hpp
    · rw [hpp, splitParamsChars_no_semi rest hrests]
      exact Or.inl rfl
    · rw [hpp, splitParamsChars_no_semi (rest ++ ['/'])
        (by intro x hx
            rcases List.mem_append.mp hx with h1 | h1
            · exact hrests x h1
            · rw [List.mem_singleton.mp h1]; decide)]
      exact Or.inr rfl
  rw [normalizeParsed]
  dsimp only
  rw [hsplit]
  dsimp only
  rw [if_neg (by
    rw [containsChar_eq_false '[' host (fun c hc => (hbrk c hc).1),
      containsChar_eq_false ']' host (fun c hc => (hbrk c hc).2)]
    simp)]
  rw [if_neg (by simp [List.isEmpty_iff, hhost_ne]), if_neg (by rw [hdom]; simp)]
  rcases hpsplit with hp | hp <;> rw [hp] <;>
    rcases hshape with rfl | ⟨⟨r', hr'⟩, hlast⟩
  · simp [schemeHttpsChars]
  · rw [if_neg ?_, rstripSlash_eq_self rest hlast]
    · simp [schemeHttpsChars]
    · simp only [Bool.or_eq_true, decide_eq_true_eq]
      rintro (rfl | rfl)
      · exact absurd hr' (by simp)
      · exact hlast rfl
  · simp [schemeHttpsChars]
  · rw [if_neg ?_, rstripSlash_append_slash, rstripSlash_eq_self rest hlast]
    · simp [schemeHttpsChars]
    · simp only [Bool.or_eq_true, decide_eq_true_eq]
      rintro (h1 | h1)
      · exact absurd h1 (by simp)
      · rw [hr'] at h1
        simp at h1

theorem normalizeChars_structured (host rest extra : List Char)
    (hspace : ∀ c ∈ host ++ (rest ++ extra), isSpaceChar c = false)
    (hhost_ne : host ≠ [])
    (hhost : ∀ c ∈ host, isNetlocEnd c = false)
    (hbrk : ∀ c ∈ host, c ≠ '[' ∧ c ≠ ']')
    (hdom : endsWithChars devpostDomainChars (lowerChars host) = true)
    (hrest : ∀ c ∈ rest, c ≠ '?' ∧ c ≠ '#' ∧ c ≠ ';')
    (hshape : rest = [] ∨ (∃ r', rest = '/' :: r') ∧ rest.getLast? ≠ some '/')
    (hextra : extra = [] ∨ extra = ['/'] ∨ (∃ q, extra = '?' :: q) ∨ ∃ f, extra = '#' :: f)
    (hns1 : startsWithChars schemeHttpChars (host ++ (rest ++ extra)) = false)
    (hns2 : startsWithChars schemeHttpsChars (host ++ (rest ++ extra)) = false) :
    normalizeChars (host ++ (rest ++ extra)) = .ok (schemeHttpsChars ++ host ++ rest)
    ∧ normalizeChars (schemeHttpsChars ++ (host ++ (rest ++ extra)))
      = .ok (schemeHttpsChars ++ host ++ rest) := by
  have hcore := normalizeParsed_structured host rest extra hhost_ne hhost hbrk hdom hrest
    hshape hextra
  have hspace2 : ∀ c ∈ schemeHttpsChars ++ (host ++ (rest ++ extra)),
      isSpaceChar c = false := by
    intro c hc
    rcases List.mem_append.mp hc with h1 | h1
    · fin_cases h1 <;> rfl
    · exact hspace c h1
  have hne0 : ¬((host ++ (rest ++ extra)).isEmpty = true) := by
    rw [List.isEmpty_iff]
    intro hnil
    exact hhost_ne (List.append_eq_nil.mp hnil).1
  constructor
  · rw [normalizeChars]
    dsimp only
    rw [trimChars_eq_self _ hspace, if_neg hne0, hns1, hns2, if_neg (by simp),
      splitScheme_https]
    exact hcore
  · rw [normalizeChars]
    dsimp only
    rw [trimChars_eq_self _ hspace2, if_neg (by simp [schemeHttpsChars]),
      startsWith_http_of_https, startsWith_https_self, if_pos (by simp), splitScheme_https]
    exact hcore

theorem normalizeChars_scheme (raw out : List Char) (h : normalizeChars raw = .ok out) :
    startsWithChars schemeHttpsChars out = true
    ∨ (startsWithChars schemeHttpChars (trimChars raw) = true
        ∧ startsWithChars schemeHttpChars out = true) := by
  rw [normalizeChars] at h
  dsimp only at h
  by_cases h0 : (trimChars raw).isEmpty = true
  · rw [if_pos h0] at h; simp at h
  · rw [if_neg h0] at h
    by_cases h1 : startsWithChars schemeHttpChars (trimChars raw) = true
    · rw [if_pos (by rw [h1]; simp), splitSchemeChars, if_pos h1] at h
      dsimp only at h
      obtain ⟨n, p, hout⟩ := normalizeParsed_shape _ _ _ h
      refine Or.inr ⟨h1, ?_⟩
      rw [hout]
      rfl
    · by_cases h2 : startsWithChars schemeHttpsChars (trimChars raw) = true
      · rw [if_pos (by rw [h2]; simp), splitSchemeChars, if_neg h1, if_pos h2] at h
        dsimp only at h
        obtain ⟨n, p, hout⟩ := normalizeParsed_shape _ _ _ h
        left
        rw [hout]
        rfl
      · rw [if_neg ?_] at h
        · rw [splitScheme_https] at h
          dsimp only at h
          obtain ⟨n, p, hout⟩ := normalizeParsed_shape _ _ _ h
          left
          rw [hout]
          rfl
        · simp only [Bool.or_eq_true]
          rintro (hx | hx)
          · exact h1 hx
          · exact h2 hx

/-- Claim C3, counterexample: an explicit http scheme is preserved, so two
raw spellings of the same host differing only by the scheme produce two
different canonical strings and the canonical scheme is not fixed; and
normalization is not idempotent — the canonical string produced for
a path whose last segment gains a semicolon when the trailing slash is
stripped normalizes to something else. -/
theorem spec_c3_counterexample :
    normalizeHackathonUrl rawHttpFooW = .ok rawHttpFooW
    ∧ normalizeHackathonUrl rawBareFooW = .ok outHttpsFooW
    ∧ rawHttpFooW ≠ outHttpsFooW
    ∧ startsWithChars schemeHttpsChars rawHttpFooW.toList = false
    ∧ normalizeHackathonUrl rawSemiW = .ok outSemiOnceW
    ∧ normalizeHackathonUrl outSemiOnceW = .ok outSemiTwiceW
    ∧ outSemiOnceW ≠ outSemiTwiceW := by
  exact ⟨rfl, rfl, by decide, rfl, rfl, rfl, by decide⟩

/-- Claim C3, amended: for a well-formed target — a devpost host free of
whitespace and brackets, a path free of whitespace, semicolons, query and
fragment delimiters and not ending in a slash — every raw spelling
differing only by a missing scheme, a trailing slash, a query string or a
fragment normalizes to the identical canonical string, and that canonical
string normalizes to itself (idempotence on such canonical strings);
every canonical string starts with the https scheme except that an
explicit http scheme in the (trimmed) input is preserved. -/
theorem spec_c3_amended :
    (∀ host rest extra : List Char,
      (∀ c ∈ host ++ (rest ++ extra), isSpaceChar c = false) →
      host ≠ [] →
      (∀ c ∈ host, isNetlocEnd c = false) →
      (∀ c ∈ host, c ≠ '[' ∧ c ≠ ']') →
      endsWithChars devpostDomainChars (lowerChars host) = true →
      (∀ c ∈ rest, c ≠ '?' ∧ c ≠ '#' ∧ c ≠ ';') →
      (rest = [] ∨ (∃ r', rest = '/' :: r') ∧ rest.getLast? ≠ some '/') →
      (extra = [] ∨ extra = ['/'] ∨ (∃ q, extra = '?' :: q) ∨ ∃ f, extra = '#' :: f) →
      startsWithChars schemeHttpChars (host ++ (rest ++ extra)) = false →
      startsWithChars schemeHttpsChars (host ++ (rest ++ extra)) = false →
      normalizeHackathonUrl (String.mk (host ++ (rest ++ extra)))
          = .ok (String.mk (schemeHttpsChars ++ host ++ rest))
        ∧ normalizeHackathonUrl (String.mk (schemeHttpsChars ++ (host ++ (rest ++ extra))))
          = .ok (String.mk (schemeHttpsChars ++ host ++ rest)))
    ∧ (∀ (raw out : String), normalizeHackathonUrl raw = .ok out →
        startsWithChars schemeHttpsChars out.toList = true
        ∨ (startsWithChars schemeHttpChars (trimChars raw.toList) = true
            ∧ startsWithChars schemeHttpChars out.toList = true)) := by
  constructor
  · intro host rest extra hspace hhost_ne hhost hbrk hdom hrest hshape hextra hns1 hns2
    have hcs := normalizeChars_structured host rest extra hspace hhost_ne hhost hbrk hdom
      hrest hshape hextra hns1 hns2
    constructor
    · show (normalizeChars (host ++ (rest ++ extra))).map String.mk = _
      rw [hcs.1]
      rfl
    · show (normalizeChars (schemeHttpsChars ++ (host ++ (rest ++ extra)))).map String.mk = _
      rw [hcs.2]
      rfl
  · intro raw out h
    have h2 : (normalizeChars raw.toList).map String.mk = .ok out := h
    cases hcn : normalizeChars raw.toList with
    | error e => rw [hcn] at h2; simp [Except.map] at h2
    | ok lc =>
        rw [hcn] at h2
        simp only [Except.map, Except.ok.injEq] at h2
        have hlc : out.toList = lc := by rw [← h2]; rfl
        rw [hlc]
        exact normalizeChars_scheme raw.toList lc hcn

/-- Witness for the amended C3 at the target host foo.devpost.com with
path /bar, exercising the trailing-slash spelling, and the scheme clause
at a canonical input. -/
theorem spec_c3_amended_witness :
    (normalizeHackathonUrl (String.mk (hostFooChars ++ (restBarChars ++ ['/'])))
        = .ok (String.mk (schemeHttpsChars ++ hostFooChars ++ restBarChars))
      ∧ normalizeHackathonUrl (String.mk (schemeHttpsChars ++ (hostFooChars
          ++ (restBarChars ++ ['/']))))
        = .ok (String.mk (schemeHttpsChars ++ hostFooChars ++ restBarChars)))
    ∧ (startsWithChars schemeHttpsChars outHttpsFooW.toList = true
        ∨ (startsWithChars schemeHttpChars (trimChars outHttpsFooW.toList) = true
            ∧ startsWithChars schemeHttpChars outHttpsFooW.toList = true)) := by
  constructor
  · exact spec_c3_amended.1 hostFooChars restBarChars ['/'] (by decide) (by decide)
      (by decide) (by decide) (by decide) (by decide)
      (Or.inr ⟨⟨['b', 'a', 'r'], rfl⟩, by decide⟩) (Or.inr (Or.inl rfl))
      (by decide) (by decide)
  · exact spec_c3_amended.2 outHttpsFooW outHttpsFooW rfl

end Hackaplan
